import Mathlib

/-!
Verification of the deterministic 2048 game engine and its replay /
commitment protocol (seeded PRNG, grid transition, move-log hash chain,
board and move packing), embedded from `src/utils/gridUtils.ts` and
`src/hooks/useGameLogic.ts`.

All JavaScript number arithmetic reached by these functions is exact in
IEEE doubles (every intermediate is an integer below 2^53, or an integer
divided by 2^32), so the embedding uses `Int`/`Nat`/`ℚ` with the exact
same operations; the single rounded constant involved (`0.9`) is compared
only against multiples of 2^-32, where the nearest-double threshold and
the exact-rational threshold agree (both cut between 3865470566/2^32 and
3865470567/2^32).
-/

namespace Game2048

/-- The LCG modulus `m = 2^32` of `SeededRandom`. -/
def lcgM : Int := 4294967296

/-- One `next()` state step of `SeededRandom`:
`this.seed = (this.a * this.seed + this.c) % this.m` with
`a = 1664525`, `c = 1013904223`.  JavaScript `%` is the truncated
remainder (sign of the dividend), i.e. `Int.tmod`. -/
def lcgStep (s : Int) : Int := Int.tmod (1664525 * s + 1013904223) lcgM

/-- Wrap an integer to a signed 32-bit value, as JavaScript `| 0`. -/
def int32 (x : Int) : Int :=
  let r := x % 4294967296
  if r < 2147483648 then r else r - 4294967296

/-- One iteration of the `SeededRandom` constructor's string hash:
`hash = ((hash << 5) - hash) + char; hash |= 0`.  The `<< 5` shift acts
on the 32-bit value and wraps. -/
def hashStep (h : Int) (c : Nat) : Int := int32 (int32 (h * 32) - h + c)

/-- The `SeededRandom` constructor: fold the seed string's char codes
into a 32-bit signed integer. -/
def hashString (seedStr : List Nat) : Int := seedStr.foldl hashStep 0

/-- The value returned by one `next()` call from PRNG state `s`:
`result = seed / m`, normalized by `+ 1` when negative. -/
def nextResult (s : Int) : ℚ :=
  let result : ℚ := ((lcgStep s : Int) : ℚ) / ((lcgM : Int) : ℚ)
  if result < 0 then result + 1 else result

/-- PRNG state after `k` calls of `next()` on a generator freshly
constructed from `seedStr`. -/
def prngState (seedStr : List Nat) (k : Nat) : Int := lcgStep^[k] (hashString seedStr)

/-- The numerator of the normalized `next()` value: the post-step state,
shifted into `[0, 2^32)` when negative. -/
def normNum (s : Int) : Int := if s < 0 then s + lcgM else s

theorem lcgM_pos : (0 : Int) < lcgM := by decide

theorem tmod_lcgM_lt (x : Int) : Int.tmod x lcgM < lcgM :=
  Int.tmod_lt_of_pos x lcgM_pos

theorem neg_lcgM_lt_tmod (x : Int) : -lcgM < Int.tmod x lcgM := by
  rcases x with m | m
  · have h0 : 0 ≤ Int.tmod (Int.ofNat m) lcgM :=
      Int.tmod_nonneg _ (Int.ofNat_nonneg m)
    have : (0 : Int) < lcgM := lcgM_pos
    omega
  · have hred : Int.tmod (Int.negSucc m) lcgM = -(Int.ofNat (m.succ % 4294967296)) := rfl
    have hlt : (Int.ofNat (m.succ % 4294967296)) < lcgM := by
      have h2 : m.succ % 4294967296 < 4294967296 := Nat.mod_lt _ (by decide)
      show Int.ofNat (m.succ % 4294967296) < Int.ofNat 4294967296
      exact Int.ofNat_lt.mpr h2
    rw [hred]
    omega

theorem lcgStep_lt (s : Int) : lcgStep s < lcgM := tmod_lcgM_lt _

theorem neg_lcgM_lt_lcgStep (s : Int) : -lcgM < lcgStep s := neg_lcgM_lt_tmod _

theorem nextResult_nonneg_lt_one (s : Int) : 0 ≤ nextResult s ∧ nextResult s < 1 := by
  unfold nextResult
  have hm : (0 : ℚ) < ((lcgM : Int) : ℚ) := by
    have : (0 : Int) < lcgM := lcgM_pos
    exact_mod_cast this
  set r : ℚ := ((lcgStep s : Int) : ℚ) / ((lcgM : Int) : ℚ) with hr
  have hub : r < 1 := by
    rw [hr, div_lt_one hm]
    exact_mod_cast lcgStep_lt s
  have hlb : (-1 : ℚ) < r := by
    rw [hr, lt_div_iff₀ hm]
    have h2 : ((-lcgM : Int) : ℚ) < ((lcgStep s : Int) : ℚ) := by
      exact_mod_cast neg_lcgM_lt_lcgStep s
    push_cast at h2 ⊢
    linarith
  by_cases hneg : r < 0
  · rw [if_pos hneg]
    constructor
    · linarith
    · linarith
  · rw [if_neg hneg]
    push_neg at hneg
    exact ⟨hneg, hub⟩

/-- A tile, from `types.ts` (`TileData`).  The optional flags `isNew`,
`isMerged`, `winnerId` (absent = `undefined` = falsy) are represented
with their falsy defaults. -/
structure TileData where
  id : Nat
  value : Nat
  row : Nat
  col : Nat
  isNew : Bool := false
  isMerged : Bool := false
  winnerId : Option Nat := none
deriving DecidableEq, Repr

/-- A 4×4 grid of optional cell contents, row-major. -/
abbrev GridOf (α : Type) := List (List (Option α))

/-- `Grid` of `types.ts`: a 4×4 matrix of tile values or `null`. -/
abbrev VGrid := GridOf Nat

/-- The grid of tile objects built inside `move`. -/
abbrev TGrid := GridOf TileData

/-- An all-`null` 4×4 grid. -/
def emptyGrid (α : Type) : GridOf α := List.replicate 4 (List.replicate 4 none)

/-- Read grid cell `(r, c)`; out-of-range reads give `none` (JavaScript
would give `undefined`, which every caller treats like `null`). -/
def getO {α : Type} (g : GridOf α) (r c : Nat) : Option α :=
  (g.getD r []).getD c none

/-- Write grid cell `(r, c)` (out-of-range writes never occur on the
4×4 grids these functions build). -/
def setCell {α : Type} (g : GridOf α) (r c : Nat) (v : Option α) : GridOf α :=
  g.set r ((g.getD r []).set c v)

/-- One step of `tilesToGrid`'s `forEach`: store the tile's value at its
cell if that cell is still `null` (first tile wins). -/
def placeValue (g : VGrid) (t : TileData) : VGrid :=
  if getO g t.row t.col = none then setCell g t.row t.col (some t.value) else g

/-- `tilesToGrid` of `gridUtils.ts`: rebuild the 4×4 value grid from a
tile list. -/
def tilesToGrid (tiles : List TileData) : VGrid :=
  tiles.foldl placeValue (emptyGrid Nat)

/-- All 16 cell coordinates in row-major order. -/
def cellsRM : List (Nat × Nat) :=
  (List.range 4).flatMap (fun r => (List.range 4).map (fun c => (r, c)))

/-- `getEmptyCells` of `gridUtils.ts`: the row-major list of `null`
cells. -/
def getEmptyCells (g : VGrid) : List (Nat × Nat) :=
  cellsRM.filter (fun rc => (getO g rc.1 rc.2).isNone)

/-- `addRandomTile` of `gridUtils.ts`.  The mutable PRNG is threaded
explicitly, so the result also carries the post-call PRNG state.
`Math.floor(prng.next() * emptyCells.length)` and `prng.next() < 0.9`
are computed on exact dyadic doubles; both are expressed below through
the integer numerator `normNum` of the returned value (the `< 0.9`
comparison against the nearest double to 0.9 cuts at the same integer
threshold as the exact `< 9/10` comparison used here). -/
def addRandomTile (tiles : List TileData) (p : Int) (tileIdCounter : Nat) :
    List TileData × Int × Nat :=
  let grid := tilesToGrid tiles
  let emptyCells := getEmptyCells grid
  if emptyCells.length = 0 then (tiles, p, tileIdCounter)
  else
    let p1 := lcgStep p
    let cellIndex := (normNum p1).toNat * emptyCells.length / 4294967296
    let rc := emptyCells.getD cellIndex (0, 0)
    let p2 := lcgStep p1
    let value := if (normNum p2).toNat * 10 < 38654705664 then 2 else 4
    let newTile : TileData :=
      { id := tileIdCounter, value := value, row := rc.1, col := rc.2, isNew := true }
    (tiles ++ [newTile], p2, tileIdCounter + 1)

/-- `generateInitialTiles` of `gridUtils.ts`: two spawns starting from
tile id 1, threading the PRNG. -/
def generateInitialTiles (p : Int) : List TileData × Int × Nat :=
  let res1 := addRandomTile [] p 1
  let res2 := addRandomTile res1.1 res1.2.1 res1.2.2
  res2

/-- Default tile used with `List.getD`; every such read is guarded by an
index bound, so the default is never produced. -/
def dummyTile : TileData := { id := 0, value := 0, row := 0, col := 0 }

/-- The merge scan of `slideAndMergeRow`: starting from index `i`, while
`i < filtered.length - 1`, compare `filtered[i]` with `filtered[i+1]`;
on equal values double the left tile in place ("winner"), splice out the
right tile ("loser", recorded with `winnerId`), add the doubled value to
the score; in all cases advance `i`.  The loop runs fewer than
`filtered.length` iterations, so the explicit fuel (first argument,
instantiated with the initial length in `mergeScan`) never runs out:
`mergeScanF_fuel` below proves the result is fuel-independent. -/
def mergeScanF : Nat → List TileData → Nat → Nat → List TileData →
    List TileData × Nat × List TileData
  | 0, filtered, _, score, losers => (filtered, score, losers)
  | fuel + 1, filtered, i, score, losers =>
    if i + 1 < filtered.length then
      let a := filtered.getD i dummyTile
      let b := filtered.getD (i + 1) dummyTile
      if a.value = b.value then
        let winner : TileData := { a with value := a.value * 2, isMerged := true }
        mergeScanF fuel ((filtered.set i winner).eraseIdx (i + 1)) (i + 1)
          (score + winner.value) (losers ++ [{ b with winnerId := some winner.id }])
      else
        mergeScanF fuel filtered (i + 1) score losers
    else
      (filtered, score, losers)

/-- The merge loop of `slideAndMergeRow`, started at `i = 0` with score
0 and no recorded losers. -/
def mergeScan (filtered : List TileData) : List TileData × Nat × List TileData :=
  mergeScanF filtered.length filtered 0 0 []

/-- Result record of `slideAndMergeRow`. -/
structure RowResult where
  newRow : List (Option TileData)
  scoreIncrease : Nat
  mergedTiles : List TileData
deriving DecidableEq, Repr

/-- `slideAndMergeRow` of `gridUtils.ts`: drop `null`s, run the merge
scan, then re-index the survivors to consecutive columns from 0 in a
fresh 4-slot row. -/
def slideAndMergeRow (row : List (Option TileData)) : RowResult :=
  let filtered := row.filterMap id
  let res := mergeScan filtered
  let placed := List.zipWith (fun t i => { t with col := i }) res.1 (List.range res.1.length)
  { newRow := (List.range 4).map (fun i => placed.get? i)
    scoreIncrease := res.2.1
    mergedTiles := res.2.2 }

/-- A move direction. -/
inductive Direction where
  | up
  | down
  | left
  | right
deriving DecidableEq, Repr

/-- `rotateGrid` of `gridUtils.ts`: `newGrid[c][3 - r] = grid[r][c]`,
i.e. cell `(r, c)` of the result reads cell `(3 - c, r)` of the input. -/
def rotateGrid {α : Type} (g : GridOf α) : GridOf α :=
  (List.range 4).map (fun r => (List.range 4).map (fun c => getO g (3 - c) r))

/-- The rotation count `move` uses to normalize each direction to a
leftward slide. -/
def rotationCount : Direction → Nat
  | .up => 3
  | .right => 2
  | .down => 1
  | .left => 0

/-- `t?.value || null` as used in `move`'s serialized grid comparison:
a present tile with value 0 would serialize as `null` (values are never
0 in play, but the embedding keeps the exact semantics). -/
def valOrNull (o : Option TileData) : Option Nat :=
  match o with
  | some t => if t.value = 0 then none else some t.value
  | none => none

/-- The value-layout snapshot `move` compares to decide `hasMoved`. -/
def valueGrid (g : TGrid) : VGrid := g.map (fun row => row.map valOrNull)

/-- The per-row pass of `move`: tag each row's tiles with their (rotated)
row index, then slide and merge the row. -/
def slideGrid (g : TGrid) : TGrid × Nat × List TileData :=
  let results := List.zipWith
    (fun row i =>
      slideAndMergeRow (row.map (fun o => o.map (fun t => { t with row := i }))))
    g (List.range g.length)
  (results.map (·.newRow), (results.map (·.scoreIncrease)).sum,
    (results.map (·.mergedTiles)).flatten)

/-- The final reassembly of `move`: scan the grid row-major and stamp
each tile with its final `(row, col)`. -/
def gridToTiles (g : TGrid) : List TileData :=
  cellsRM.filterMap (fun rc => (getO g rc.1 rc.2).map (fun t => { t with row := rc.1, col := rc.2 }))

/-- The loser fix-up of `move`: each merged (removed) tile is moved to
its winner's final cell, for the merge animation. -/
def fixLosers (losers finalTiles : List TileData) : List TileData :=
  losers.map (fun l =>
    match finalTiles.find? (fun t => l.winnerId == some t.id) with
    | some w => { l with row := w.row, col := w.col }
    | none => l)

/-- Result record of `move`. -/
structure MoveResult where
  newTiles : List TileData
  mergedTiles : List TileData
  scoreIncrease : Nat
  hasMoved : Bool
deriving DecidableEq, Repr

/-- The grid `move` builds from its working tiles: unconditional
`grid[t.row][t.col] = t` (later tiles overwrite earlier ones; in play
positions are distinct). -/
def buildTileGrid (tiles : List TileData) : TGrid :=
  tiles.foldl (fun g t => setCell g t.row t.col (some t)) (emptyGrid TileData)

/-- Reset of the animation flags applied to every tile at the start of
`move`. -/
def resetFlags (t : TileData) : TileData :=
  { t with isNew := false, isMerged := false, winnerId := none }

/-- `move` of `gridUtils.ts`. -/
def move (tiles : List TileData) (direction : Direction) : MoveResult :=
  let workingTiles := tiles.map resetFlags
  let grid0 := buildTileGrid workingTiles
  let originalGridForComparison := valueGrid grid0
  let rotations := rotationCount direction
  let grid1 := rotateGrid^[rotations] grid0
  let slid := slideGrid grid1
  let grid3 := rotateGrid^[(4 - rotations) % 4] slid.1
  let finalTiles := gridToTiles grid3
  let hasMoved := decide (originalGridForComparison ≠ valueGrid grid3)
  { newTiles := finalTiles
    mergedTiles := fixLosers slid.2.2 finalTiles
    scoreIncrease := slid.2.1
    hasMoved := hasMoved }

/-- `isGameOver` of `gridUtils.ts`: false when fewer than 16 tiles;
otherwise scan the grid and fail on any `null` cell or any equal
orthogonal neighbor. -/
def isGameOver (tiles : List TileData) : Bool :=
  if tiles.length < 16 then false
  else
    let grid := tilesToGrid tiles
    cellsRM.all (fun rc =>
      match getO grid rc.1 rc.2 with
      | none => false
      | some v =>
        !(decide (rc.1 + 1 < 4) && decide (getO grid (rc.1 + 1) rc.2 = some v)) &&
        !(decide (rc.2 + 1 < 4) && decide (getO grid rc.1 (rc.2 + 1) = some v)))

/-- Move encoding used by `performMove` (`directionMap = {up:0, right:1,
down:2, left:3}`). -/
def dirCode : Direction → Nat
  | .up => 0
  | .right => 1
  | .down => 2
  | .left => 3

/-- The decode table of `verifyGame`:
`directionMap = ['up', 'right', 'down', 'left']`. -/
def directionMap : List Direction := [.up, .right, .down, .left]

/-- The replay state threaded through `verifyGame`'s loop. -/
structure VState where
  tiles : List TileData
  score : Nat
  prng : Int
  tileIdCounter : Nat
deriving DecidableEq, Repr

/-- One iteration of `verifyGame`'s loop: skip out-of-range move codes;
apply `move`; on `hasMoved`, add the score delta and spawn one tile. -/
def verifyStep (s : VState) (m : Nat) : VState :=
  if m > 3 then s
  else
    let direction := directionMap.getD m .up
    let moveResult := move s.tiles direction
    if moveResult.hasMoved then
      let r := addRandomTile moveResult.newTiles s.prng s.tileIdCounter
      { tiles := r.1, score := s.score + moveResult.scoreIncrease,
        prng := r.2.1, tileIdCounter := r.2.2 }
    else s

/-- Result record of `verifyGame`. -/
structure VerifyResult where
  finalScore : Nat
  finalTiles : List TileData
deriving DecidableEq, Repr

/-- The replay state `verifyGame` starts from: fresh PRNG from the seed,
the two initial spawns, score 0. -/
def verifyInit (seed : List Nat) : VState :=
  let g := generateInitialTiles (hashString seed)
  { tiles := g.1, score := 0, prng := g.2.1, tileIdCounter := g.2.2 }

/-- `verifyGame` of `gridUtils.ts`: replay a move-code list from the
seed alone. -/
def verifyGame (seed : List Nat) (moves : List Nat) : VerifyResult :=
  let s := moves.foldl verifyStep (verifyInit seed)
  { finalScore := s.score, finalTiles := s.tiles }

/-- Modelled from the spec: `INITIAL_MOVES_HASH` is the hex string
`'0x' + '0'.repeat(64)` and `hexToUint8Array` (whose body is not in
`src/`) turns it into the 32 zero bytes the spec names the hash chain's
genesis value.  The commitment state is kept at the byte level. -/
def INITIAL_MOVES_HASH : List Nat := List.replicate 32 0

/-- The live session state managed by `useGameLogic` (the fields of a
game that `performMove` reads or writes, with the mutable PRNG and tile
id counter made explicit). -/
structure LiveState where
  tiles : List TileData
  score : Nat
  moves : List Nat
  movesHash : List Nat
  prng : Int
  tileIdCounter : Nat
  isGameOver : Bool
  isWon : Bool
deriving DecidableEq, Repr

/-- The state `newGame` establishes once the seed is known: two spawned
tiles, score 0, empty move log, genesis commitment. -/
def initSession (seed : List Nat) : LiveState :=
  let g := generateInitialTiles (hashString seed)
  { tiles := g.1, score := 0, moves := [], movesHash := INITIAL_MOVES_HASH,
    prng := g.2.1, tileIdCounter := g.2.2, isGameOver := false, isWon := false }

/-- `performMove` of `useGameLogic.ts`, including the deferred
(animation-timeout) spawn step, as one synchronous transition.  `sha`
abstracts the SHA-256 primitive (its body is not in `src/`); the update
`newHash = sha256(prevHashBytes ‖ [moveCode])` is taken verbatim from
the source.  A move on a finished game, or one whose `move` reports
`hasMoved = false`, leaves the state untouched. -/
def performMove (sha : List Nat → List Nat) (s : LiveState) (direction : Direction) :
    LiveState :=
  if s.isGameOver then s
  else
    let r := move s.tiles direction
    if r.hasMoved then
      let newMove := dirCode direction
      let tilesAfterAnimation := r.newTiles.map (fun t => { t with isMerged := false })
      let spawn := addRandomTile tilesAfterAnimation s.prng s.tileIdCounter
      { tiles := spawn.1
        score := s.score + r.scoreIncrease
        moves := s.moves ++ [newMove]
        movesHash := sha (s.movesHash ++ [newMove])
        prng := spawn.2.1
        tileIdCounter := spawn.2.2
        isGameOver := isGameOver spawn.1
        isWon := s.isWon || spawn.1.any (fun t => t.value = 2048) }
    else s

/-- A live session played from `seed` through the direction sequence
`dirs` (rejected moves leave the state unchanged). -/
def playSession (sha : List Nat → List Nat) (seed : List Nat) (dirs : List Direction) :
    LiveState :=
  dirs.foldl (performMove sha) (initSession seed)

/-- The accumulation loop of `packMoves`:
`packed |= (moves[i] & 3) << (i * 2)`. -/
def packLoop : List Nat → Nat → Nat → Nat
  | [], _, packed => packed
  | m :: ms, i, packed => packLoop ms (i + 1) (packed ||| ((m % 4) <<< (i * 2)))

/-- The packed integer `packMoves` builds before hex formatting. -/
def packMovesNat (moves : List Nat) : Nat := packLoop moves 0 0

/-- ASCII code of a lowercase hex digit, as produced by JavaScript
`BigInt.toString(16)`. -/
def hexDigitChar (d : Nat) : Nat := if d < 10 then 48 + d else 87 + d

/-- Hex digits of `n` (most significant first, empty for 0), with fuel;
`n` itself is always enough fuel since `n / 16 < n`. -/
def hexDigitsF : Nat → Nat → List Nat
  | 0, _ => []
  | fuel + 1, n => if n = 0 then [] else hexDigitsF fuel (n / 16) ++ [hexDigitChar (n % 16)]

/-- `BigInt.toString(16)` on a non-negative integer, as ASCII codes. -/
def toHexString (n : Nat) : List Nat :=
  if n = 0 then [48] else hexDigitsF n n

/-- `packMoves` of `gridUtils.ts`: `'0x0'` for an empty log, otherwise
`'0x' + packed.toString(16)`, as ASCII codes. -/
def packMoves (moves : List Nat) : List Nat :=
  if moves.length = 0 then [48, 120, 48]
  else [48, 120] ++ toHexString (packMovesNat moves)

/-- Numeric value of an ASCII hex digit. -/
def hexVal (c : Nat) : Nat :=
  if 48 ≤ c ∧ c ≤ 57 then c - 48
  else if 97 ≤ c ∧ c ≤ 102 then c - 87
  else 0

/-- Parse a `'0x…'` hex string (as ASCII codes) back to a number. -/
def parseHex (s : List Nat) : Nat :=
  (s.drop 2).foldl (fun acc c => acc * 16 + hexVal c) 0

/-- Modelled from the spec: no `unpackMoves` exists in `src/` (only its
contract in the spec: "each MoveCode (0–3) occupies 2 bits, concatenated
in move order, least-significant first", with consumers sizing storage
from the move count).  Decodes `count` two-bit fields from a packed hex
string, first move least significant. -/
def unpackMoves (packed : List Nat) (count : Nat) : List Nat :=
  let n := parseHex packed
  (List.range count).map (fun i => (n >>> (i * 2)) % 4)

/-- Floor base-2 logarithm with fuel (`n` itself is always enough fuel
since the argument halves each step); written this way so the kernel
can evaluate it. -/
def log2F : Nat → Nat → Nat
  | 0, _ => 0
  | fuel + 1, n => if n < 2 then 0 else log2F fuel (n / 2) + 1

/-- Floor base-2 logarithm. -/
def floorLog2 (n : Nat) : Nat := log2F n n

/-- `Math.log2(value)` of a positive tile value when it is an exact
integer (i.e. the value is a power of two); `none` plays the role of a
fractional result, which `BigInt(...)` rejects with a `RangeError`. -/
def log2Cell (v : Nat) : Option Nat :=
  if 2 ^ floorLog2 v = v then some (floorLog2 v) else none

/-- `packBoard` of `gridUtils.ts`.  The grid starts as 16 zero nibbles
(`some 0`); each tile with positive value stores `Math.log2(value)` at
its cell (`none` marking a non-integer logarithm).  The packing loop
ORs each cell's nibble value shifted by `4 * cellIndex`; a `none` cell
makes the whole call fail (the JavaScript `BigInt` conversion throws),
hence the `Option` result.  No width check is performed: a stored
logarithm ≥ 16 is ORed in as-is. -/
def packBoard (tiles : List TileData) : Option Nat :=
  let grid := tiles.foldl
    (fun g t => if t.value > 0 then setCell g t.row t.col (some (log2Cell t.value)) else g)
    (List.replicate 4 (List.replicate 4 (some (some 0))))
  let cells := cellsRM.map (fun rc => getO grid rc.1 rc.2)
  if cells.all (fun o => (o.getD none).isSome) then
    some ((List.zipWith (fun o i => (o.getD none).getD 0 <<< (4 * i)) cells (List.range 16)).foldl
      (· ||| ·) 0)
  else none

/-- A concrete stand-in hash used only to instantiate the abstract
SHA-256 parameter in concrete evaluations. -/
def shaZ : List Nat → List Nat := fun l => List.replicate 32 (l.length % 256)

/-- C5: for every seed string and every number of consecutive calls,
`SeededRandom.next()` returns a value in [0, 1) — including for seeds
whose initial 32-bit signed string hash is negative, where the LCG's
truncated remainder can be negative and is normalized by adding 1. -/
theorem claim_C5_next_always_in_unit_interval (seedStr : List Nat) (k : Nat) :
    0 ≤ nextResult (prngState seedStr k) ∧ nextResult (prngState seedStr k) < 1 :=
  nextResult_nonneg_lt_one _

/-- C9: if `move` reports `hasMoved = false`, or the session is already
over, `performMove` changes nothing: tiles, score, move log, commitment
hash, PRNG state and tile-id counter are left unchanged and no tile is
spawned. -/
theorem claim_C9_rejected_move_changes_nothing (sha : List Nat → List Nat)
    (s : LiveState) (d : Direction) :
    (s.isGameOver = true → performMove sha s d = s) ∧
    ((move s.tiles d).hasMoved = false → performMove sha s d = s) := by
  constructor
  · intro h
    simp [performMove, h]
  · intro h
    unfold performMove
    by_cases hov : s.isGameOver
    · simp [hov]
    · simp [hov, h]

/-- A session state whose only tile sits in the top-left corner, so a
leftward move cannot move anything. -/
def stuckLeftState : LiveState :=
  { tiles := [{ id := 1, value := 2, row := 0, col := 0 }], score := 0, moves := [],
    movesHash := INITIAL_MOVES_HASH, prng := 0, tileIdCounter := 2,
    isGameOver := false, isWon := false }

/-- Witness for C9 at a concrete rejected move. -/
theorem claim_C9_witness :
    (move stuckLeftState.tiles Direction.left).hasMoved = false ∧
    performMove shaZ stuckLeftState Direction.left = stuckLeftState :=
  ⟨by decide,
   (claim_C9_rejected_move_changes_nothing shaZ stuckLeftState Direction.left).2 (by decide)⟩

/-- C6 (code bug): `packBoard` raises no failure on a tile value of
65536; `Math.log2` gives the integer 16, which is ORed in at the cell's
bit position and spills into the next nibble — the board whose only
tile is 65536 at cell (0,0) packs to exactly the same integer `0x10` as
the board whose only tile is a 2 at cell (0,1). -/
theorem claim_C6_packBoard_overflow_spills_instead_of_failing :
    packBoard [{ id := 1, value := 65536, row := 0, col := 0 }] = some 16 ∧
    packBoard [{ id := 1, value := 2, row := 0, col := 1 }] = some 16 := by decide

/-- C10: on a board with no empty cell `addRandomTile` returns the
input tiles, PRNG state and id counter unchanged (zero draws); on a
board with an empty cell it consumes exactly two draws, appends exactly
one tile whose id is the current counter value, and increments the
counter. -/
theorem claim_C10_addRandomTile_contract (tiles : List TileData) (p : Int) (c : Nat) :
    (getEmptyCells (tilesToGrid tiles) = [] → addRandomTile tiles p c = (tiles, p, c)) ∧
    (getEmptyCells (tilesToGrid tiles) ≠ [] →
      ∃ t : TileData, t.id = c ∧ t.isNew = true ∧
        addRandomTile tiles p c = (tiles ++ [t], lcgStep (lcgStep p), c + 1)) := by
  constructor
  · intro h
    simp [addRandomTile, h]
  · intro h
    have hne : ¬(getEmptyCells (tilesToGrid tiles)).length = 0 := by
      simpa [List.length_eq_zero] using h
    unfold addRandomTile
    rw [if_neg hne]
    exact ⟨_, rfl, rfl, rfl⟩

/-- A fully occupied board: 16 tiles, one per cell. -/
def fullBoardTiles : List TileData :=
  (List.range 16).map (fun i => { id := i + 1, value := 2, row := i / 4, col := i % 4 })

/-- A board with one tile (15 empty cells). -/
def oneTileBoard : List TileData := [{ id := 1, value := 2, row := 2, col := 1 }]

/-- Witness for C10: the full board spawns nothing and consumes no
draw; the one-tile board spawns exactly one tile with the next id. -/
theorem claim_C10_witness :
    (getEmptyCells (tilesToGrid fullBoardTiles) = [] ∧
      addRandomTile fullBoardTiles 5 17 = (fullBoardTiles, 5, 17)) ∧
    (getEmptyCells (tilesToGrid oneTileBoard) ≠ [] ∧
      ∃ t : TileData, t.id = 2 ∧ t.isNew = true ∧
        addRandomTile oneTileBoard 7 2 = (oneTileBoard ++ [t], lcgStep (lcgStep 7), 2 + 1)) :=
  ⟨⟨by decide, (claim_C10_addRandomTile_contract fullBoardTiles 5 17).1 (by decide)⟩,
   ⟨by decide, (claim_C10_addRandomTile_contract oneTileBoard 7 2).2 (by decide)⟩⟩

/-- The spec's hash chain: genesis 32 zero bytes, then
`h_k = SHA256(h_(k-1) ‖ singleByte(m_k))` folded over the move log. -/
def hashChain (sha : List Nat → List Nat) (moves : List Nat) : List Nat :=
  moves.foldl (fun h m => sha (h ++ [m])) INITIAL_MOVES_HASH

/-- Fold a session invariant over a direction sequence. -/
theorem playSession_inv (sha : List Nat → List Nat) (P : LiveState → Prop)
    (step : ∀ s d, P s → P (performMove sha s d)) :
    ∀ (dirs : List Direction) (s : LiveState), P s → P (dirs.foldl (performMove sha) s) := by
  intro dirs
  induction dirs with
  | nil => exact fun s h => h
  | cons d ds ih => exact fun s h => ih _ (step s d h)

theorem hashChain_append (sha : List Nat → List Nat) (ms : List Nat) (m : Nat) :
    hashChain sha (ms ++ [m]) = sha (hashChain sha ms ++ [m]) := by
  simp [hashChain, List.foldl_append]

/-- C2: for every session and every accepted-move sequence, the
commitment equals the hash chain over the logged move bytes (genesis 32
zero bytes, one fold per accepted move, none for rejected moves), for
every choice of the underlying SHA-256 function. -/
theorem claim_C2_commitment_is_hash_chain (sha : List Nat → List Nat)
    (seed : List Nat) (dirs : List Direction) :
    (playSession sha seed dirs).movesHash = hashChain sha (playSession sha seed dirs).moves := by
  refine playSession_inv sha (fun s => s.movesHash = hashChain sha s.moves) ?_ dirs
    (initSession seed) rfl
  intro s d h
  unfold performMove
  by_cases hov : s.isGameOver
  · simpa [hov] using h
  · by_cases hmv : (move s.tiles d).hasMoved
    · simp only [hov, if_false, hmv, if_true, Bool.false_eq_true]
      rw [hashChain_append, h]
    · simpa [hov, hmv] using h

theorem getD_set_of_ne {α : Type} (l : List α) (i j : Nat) (a d : α) (h : i ≠ j) :
    (l.set i a).getD j d = l.getD j d := by
  rw [List.getD_eq_getElem?_getD, List.getElem?_set_ne h, ← List.getD_eq_getElem?_getD]

theorem getO_setCell_ne {α : Type} (g : GridOf α) (r c : Nat) (v : Option α)
    (r₁ c₁ : Nat) (h : ¬(r₁ = r ∧ c₁ = c)) :
    getO (setCell g r c v) r₁ c₁ = getO g r₁ c₁ := by
  unfold getO setCell
  by_cases hr : r = r₁
  · subst hr
    have hc : c ≠ c₁ := fun hceq => h ⟨rfl, hceq.symm⟩
    by_cases hlen : r < g.length
    · rw [List.getD_eq_getElem?_getD (g.set r _), List.getElem?_set, if_pos rfl,
        if_pos hlen, Option.getD_some, getD_set_of_ne _ _ _ _ _ hc]
    · have h1 : (g.set r ((g.getD r []).set c v)).getD r [] = [] := by
        rw [List.getD_eq_getElem?_getD, List.getElem?_set, if_pos rfl, if_neg hlen]
        rfl
      have h2 : g.getD r [] = [] := by
        rw [List.getD_eq_getElem?_getD, List.getElem?_eq_none (le_of_not_lt hlen)]
        rfl
      rw [h1, h2]
  · rw [getD_set_of_ne _ _ _ _ _ hr]

theorem getO_placeValue_ne (g : VGrid) (t : TileData) (r c : Nat)
    (h : ¬(r = t.row ∧ c = t.col)) :
    getO (placeValue g t) r c = getO g r c := by
  unfold placeValue
  by_cases hempty : getO g t.row t.col = none
  · rw [if_pos hempty, getO_setCell_ne _ _ _ _ _ _ h]
  · rw [if_neg hempty]

theorem countP_le_countP_add {α : Type} [DecidableEq α] (l : List α)
    (p q : α → Bool) (a : α)
    (h : ∀ x ∈ l, q x = true → p x = true ∨ x = a) :
    l.countP q ≤ l.countP p + l.countP (fun x => decide (x = a)) := by
  induction l with
  | nil => simp
  | cons x xs ih =>
    have hxs : ∀ y ∈ xs, q y = true → p y = true ∨ y = a :=
      fun y hy => h y (List.mem_cons_of_mem x hy)
    have hrec := ih hxs
    simp only [List.countP_cons]
    by_cases hq : q x = true
    · have e1 : (if q x = true then 1 else 0) = 1 := by simp [hq]
      rcases h x (List.mem_cons_self x xs) hq with hp | hxa
      · have e2 : (if p x = true then 1 else 0) = 1 := by simp [hp]
        rw [e1, e2]
        omega
      · have e3 : (if decide (x = a) = true then 1 else 0) = 1 := by simp [hxa]
        rw [e1, e3]
        omega
    · have e0 : (if q x = true then 1 else 0) = 0 := by simp [hq]
      rw [e0]
      omega

theorem countP_self_le_one {α : Type} [DecidableEq α] (a : α) :
    ∀ l : List α, l.Nodup → l.countP (fun x => decide (x = a)) ≤ 1 := by
  intro l
  induction l with
  | nil => intro; simp
  | cons x xs ih =>
    intro hl
    rcases List.nodup_cons.mp hl with ⟨hx, hxs⟩
    rw [List.countP_cons]
    by_cases hxa : x = a
    · subst hxa
      have hz : xs.countP (fun y => decide (y = x)) = 0 :=
        List.countP_eq_zero.mpr (fun b hb => by
          simp only [decide_eq_true_eq]
          intro hbx
          exact hx (hbx ▸ hb))
      have e1 : (if decide (x = x) = true then 1 else 0) = 1 := by simp
      rw [hz, e1]
    · have e0 : (if decide (x = a) = true then 1 else 0) = 0 := by simp [hxa]
      rw [e0]
      have := ih hxs
      omega

/-- The number of occupied cells of a grid. -/
def occupiedCount (g : VGrid) : Nat :=
  cellsRM.countP (fun rc => (getO g rc.1 rc.2).isSome)

theorem occupiedCount_placeValue (g : VGrid) (t : TileData) :
    occupiedCount (placeValue g t) ≤ occupiedCount g + 1 := by
  have h := countP_le_countP_add cellsRM
    (fun rc => (getO g rc.1 rc.2).isSome)
    (fun rc => (getO (placeValue g t) rc.1 rc.2).isSome)
    (t.row, t.col) ?_
  · have hone := countP_self_le_one ((t.row, t.col) : Nat × Nat) cellsRM (by decide)
    unfold occupiedCount
    omega
  · intro rc _ hq
    by_cases hc : rc.1 = t.row ∧ rc.2 = t.col
    · right
      obtain ⟨x, y⟩ := rc
      obtain ⟨h1, h2⟩ := hc
      simp_all
    · left
      have hq2 : (getO (placeValue g t) rc.1 rc.2).isSome = true := hq
      have : getO (placeValue g t) rc.1 rc.2 = getO g rc.1 rc.2 :=
        getO_placeValue_ne g t rc.1 rc.2 hc
      rw [this] at hq2
      exact hq2

theorem occupiedCount_foldl (ts : List TileData) :
    ∀ g : VGrid, occupiedCount (ts.foldl placeValue g) ≤ occupiedCount g + ts.length := by
  induction ts with
  | nil => intro g; simp
  | cons t ts ih =>
    intro g
    have h1 := ih (placeValue g t)
    have h2 := occupiedCount_placeValue g t
    simp only [List.foldl_cons, List.length_cons]
    omega

theorem occupiedCount_tilesToGrid_le (ts : List TileData) :
    occupiedCount (tilesToGrid ts) ≤ ts.length := by
  have h := occupiedCount_foldl ts (emptyGrid Nat)
  have h0 : occupiedCount (emptyGrid Nat) = 0 := by decide
  unfold tilesToGrid
  omega

theorem mem_cellsRM (r c : Nat) : (r, c) ∈ cellsRM ↔ r < 4 ∧ c < 4 := by
  simp [cellsRM, List.mem_flatMap, List.mem_range, List.mem_map, Prod.ext_iff]

/-- For the statement of C8: every cell of the grid is occupied. -/
def boardFull (g : VGrid) : Prop :=
  ∀ r c, r < 4 → c < 4 → (getO g r c).isSome = true

/-- For the statement of C8: no two orthogonally adjacent cells hold
equal contents (on a full board: equal values). -/
def noAdjacentEqual (g : VGrid) : Prop :=
  ∀ r c, r < 4 → c < 4 →
    (r + 1 < 4 → getO g (r + 1) c ≠ getO g r c) ∧
    (c + 1 < 4 → getO g r (c + 1) ≠ getO g r c)

theorem cellCheck_eq (g : VGrid) (r c : Nat) :
    ((match getO g r c with
      | none => false
      | some v =>
        !(decide (r + 1 < 4) && decide (getO g (r + 1) c = some v)) &&
        !(decide (c + 1 < 4) && decide (getO g r (c + 1) = some v))) = true) ↔
    ((getO g r c).isSome = true ∧
      (r + 1 < 4 → getO g (r + 1) c ≠ getO g r c) ∧
      (c + 1 < 4 → getO g r (c + 1) ≠ getO g r c)) := by
  cases hcell : getO g r c with
  | none => simp
  | some v =>
    simp only [Bool.and_eq_true, Bool.not_eq_true', Bool.and_eq_false_iff,
      decide_eq_true_eq, decide_eq_false_iff_not, Option.isSome_some, true_and]
    constructor
    · rintro ⟨h1, h2⟩
      constructor
      · intro hr1 heq
        rcases h1 with h | h
        · exact h hr1
        · exact h heq
      · intro hc1 heq
        rcases h2 with h | h
        · exact h hc1
        · exact h heq
    · rintro ⟨h1, h2⟩
      constructor
      · by_cases hr1 : r + 1 < 4
        · exact Or.inr (h1 hr1)
        · exact Or.inl hr1
      · by_cases hc1 : c + 1 < 4
        · exact Or.inr (h2 hc1)
        · exact Or.inl hc1

/-- C8: `isGameOver` returns `true` iff all 16 cells of the board are
occupied and no two orthogonally adjacent cells hold equal values; a
board with an empty cell, or a full board with an adjacent equal pair,
is not terminal. -/
theorem claim_C8_isGameOver_iff_full_and_stuck (tiles : List TileData) :
    isGameOver tiles = true ↔
      boardFull (tilesToGrid tiles) ∧ noAdjacentEqual (tilesToGrid tiles) := by
  unfold isGameOver
  by_cases hlen : tiles.length < 16
  · rw [if_pos hlen]
    simp only [Bool.false_eq_true, false_iff]
    rintro ⟨hfull, -⟩
    have hocc : occupiedCount (tilesToGrid tiles) ≤ tiles.length :=
      occupiedCount_tilesToGrid_le tiles
    have h16 : occupiedCount (tilesToGrid tiles) = 16 := by
      unfold occupiedCount
      have hmem : ∀ rc ∈ cellsRM, ((getO (tilesToGrid tiles) rc.1 rc.2).isSome) = true := by
        intro rc hrc
        obtain ⟨r, c⟩ := rc
        obtain ⟨hr, hc⟩ := (mem_cellsRM r c).mp hrc
        exact hfull r c hr hc
      rw [List.countP_eq_length.mpr hmem]
      rfl
    omega
  · rw [if_neg hlen, List.all_eq_true]
    constructor
    · intro hall
      have hcell : ∀ r c, r < 4 → c < 4 →
          (getO (tilesToGrid tiles) r c).isSome = true ∧
          (r + 1 < 4 → getO (tilesToGrid tiles) (r + 1) c ≠ getO (tilesToGrid tiles) r c) ∧
          (c + 1 < 4 → getO (tilesToGrid tiles) r (c + 1) ≠ getO (tilesToGrid tiles) r c) :=
        fun r c hr hc =>
          (cellCheck_eq (tilesToGrid tiles) r c).mp
            (hall (r, c) ((mem_cellsRM r c).mpr ⟨hr, hc⟩))
      exact ⟨fun r c hr hc => (hcell r c hr hc).1,
        fun r c hr hc => ⟨(hcell r c hr hc).2.1, (hcell r c hr hc).2.2⟩⟩
    · rintro ⟨hfull, hadj⟩ x hx
      obtain ⟨r, c⟩ := x
      obtain ⟨hr, hc⟩ := (mem_cellsRM r c).mp hx
      exact (cellCheck_eq (tilesToGrid tiles) r c).mpr
        ⟨hfull r c hr hc, (hadj r c hr hc).1, (hadj r c hr hc).2⟩

/-- Classic 2048 row merge on values (spec side of C4): scan left to
right, merge each adjacent equal pair once, and never re-merge the
doubled result within the same pass. -/
def classicMergeValues : List Nat → List Nat
  | [] => []
  | [a] => [a]
  | a :: b :: rest₂ =>
    if a = b then a * 2 :: classicMergeValues rest₂
    else a :: classicMergeValues (b :: rest₂)
termination_by l => l.length

/-- Score delta of the classic single-merge pass (spec side of C4). -/
def classicMergeScore : List Nat → Nat
  | [] => 0
  | [_] => 0
  | a :: b :: rest₂ =>
    if a = b then a * 2 + classicMergeScore rest₂
    else classicMergeScore (b :: rest₂)
termination_by l => l.length

/-- Recursive form of the merge scan: survivors, score delta and losers
of one left-to-right single-merge pass over a tile list. -/
def mergeTriple : List TileData → List TileData × Nat × List TileData
  | [] => ([], 0, [])
  | [a] => ([a], 0, [])
  | a :: b :: rest₂ =>
    if a.value = b.value then
      let winner : TileData := { a with value := a.value * 2, isMerged := true }
      let t := mergeTriple rest₂
      (winner :: t.1, winner.value + t.2.1, { b with winnerId := some winner.id } :: t.2.2)
    else
      let t := mergeTriple (b :: rest₂)
      (a :: t.1, t.2.1, t.2.2)
termination_by l => l.length

theorem eraseIdx_append_plus {α : Type} (pre suf : List α) (k : Nat) :
    (pre ++ suf).eraseIdx (pre.length + k) = pre ++ suf.eraseIdx k := by
  induction pre with
  | nil => simp
  | cons x xs ih =>
    have hidx : (x :: xs).length + k = (xs.length + k) + 1 := by
      simp only [List.length_cons]
      omega
    rw [List.cons_append, hidx, List.eraseIdx_cons_succ, ih]
    rfl

theorem mergeScanF_spec :
    ∀ (fuel : Nat) (pre suf : List TileData) (s : Nat) (ls : List TileData),
      suf.length ≤ fuel →
      mergeScanF fuel (pre ++ suf) pre.length s ls =
        (pre ++ (mergeTriple suf).1, s + (mergeTriple suf).2.1, ls ++ (mergeTriple suf).2.2) := by
  intro fuel
  induction fuel with
  | zero =>
    intro pre suf s ls hlen
    have hnil : suf = [] := List.length_eq_zero.mp (Nat.le_zero.mp hlen)
    subst hnil
    simp [mergeScanF, mergeTriple]
  | succ f ih =>
    intro pre suf s ls hlen
    rcases suf with - | ⟨a, rest1⟩
    · have hcond : ¬(pre.length + 1 < (pre ++ ([] : List TileData)).length) := by simp
      simp only [mergeScanF]
      rw [if_neg hcond]
      simp [mergeTriple]
    rcases rest1 with - | ⟨b, rest⟩
    · have hcond : ¬(pre.length + 1 < (pre ++ [a]).length) := by simp
      simp only [mergeScanF]
      rw [if_neg hcond]
      simp [mergeTriple]
    · have hcond : pre.length + 1 < (pre ++ a :: b :: rest).length := by
        simp only [List.length_append, List.length_cons]
        omega
      have hga : (pre ++ a :: b :: rest).getD pre.length dummyTile = a := by
        rw [List.getD_append_right _ _ _ _ (le_refl _), Nat.sub_self]
        rfl
      have hgb : (pre ++ a :: b :: rest).getD (pre.length + 1) dummyTile = b := by
        rw [List.getD_append_right _ _ _ _ (by omega)]
        have hone : pre.length + 1 - pre.length = 1 := by omega
        rw [hone]
        rfl
      simp only [mergeScanF]
      rw [if_pos hcond, hga, hgb]
      by_cases hv : a.value = b.value
      · rw [if_pos hv]
        have hset : (pre ++ a :: b :: rest).set pre.length
            { a with value := a.value * 2, isMerged := true } =
            pre ++ { a with value := a.value * 2, isMerged := true } :: b :: rest := by
          rw [List.set_append, if_neg (lt_irrefl _), Nat.sub_self]
          rfl
        have herase :
            (pre ++ { a with value := a.value * 2, isMerged := true } :: b :: rest).eraseIdx
              (pre.length + 1) =
            pre ++ { a with value := a.value * 2, isMerged := true } :: rest := by
          rw [eraseIdx_append_plus]
          rfl
        rw [hset, herase]
        have hlist : pre ++ { a with value := a.value * 2, isMerged := true } :: rest =
            (pre ++ [{ a with value := a.value * 2, isMerged := true }]) ++ rest := by
          simp
        have hidx : pre.length + 1 =
            (pre ++ [{ a with value := a.value * 2, isMerged := true }]).length := by
          simp
        rw [hlist, hidx, ih _ rest _ _ (by
          simp only [List.length_cons] at hlen
          omega)]
        simp [mergeTriple, hv, List.append_assoc, Nat.add_assoc]
      · rw [if_neg hv]
        have hlist : pre ++ a :: b :: rest = (pre ++ [a]) ++ (b :: rest) := by simp
        have hidx : pre.length + 1 = (pre ++ [a]).length := by simp
        rw [hlist, hidx, ih _ (b :: rest) s ls (by
          simp only [List.length_cons] at hlen ⊢
          omega)]
        simp [mergeTriple, hv, List.append_assoc]

theorem mergeScan_eq (l : List TileData) : mergeScan l = mergeTriple l := by
  have h := mergeScanF_spec l.length [] l 0 [] (le_refl _)
  unfold mergeScan
  simpa using h

theorem mergeTriple_length_le (l : List TileData) : (mergeTriple l).1.length ≤ l.length := by
  induction l using mergeTriple.induct with
  | case1 => simp [mergeTriple]
  | case2 a => simp [mergeTriple]
  | case3 a b rest₂ hv ih =>
    simp only [mergeTriple, if_pos hv, List.length_cons]
    simp only [List.length_cons] at ih ⊢
    omega
  | case4 a b rest₂ hv ih =>
    simp only [mergeTriple, if_neg hv, List.length_cons]
    simp only [List.length_cons] at ih ⊢
    omega

theorem mergeTriple_values (l : List TileData) :
    (mergeTriple l).1.map TileData.value = classicMergeValues (l.map TileData.value) ∧
    (mergeTriple l).2.1 = classicMergeScore (l.map TileData.value) := by
  induction l using mergeTriple.induct with
  | case1 => simp [mergeTriple, classicMergeValues, classicMergeScore]
  | case2 a => simp [mergeTriple, classicMergeValues, classicMergeScore]
  | case3 a b rest₂ hv ih =>
    simp [mergeTriple, classicMergeValues, classicMergeScore, hv, ih.1, ih.2]
  | case4 a b rest₂ hv ih =>
    simp [mergeTriple, classicMergeValues, classicMergeScore, hv, ih.1, ih.2]

theorem filterMap_range_get {α : Type} :
    ∀ (n : Nat) (l : List α), l.length ≤ n →
      ((List.range n).map (fun i => l.get? i)).filterMap id = l := by
  intro n
  induction n with
  | zero =>
    intro l hl
    have hnil : l = [] := List.length_eq_zero.mp (Nat.le_zero.mp hl)
    subst hnil
    simp
  | succ m ih =>
    intro l hl
    rw [List.range_succ_eq_map]
    rcases l with - | ⟨x, xs⟩
    · simp
    · simp only [List.map_cons, List.map_map]
      have hhd : (x :: xs).get? 0 = some x := rfl
      have hcomp : ((fun i => (x :: xs).get? i) ∘ Nat.succ) = fun i => xs.get? i := by
        funext i
        rfl
      rw [hhd, hcomp, List.filterMap_cons]
      simp only [id]
      rw [ih xs (by simpa using hl)]

theorem zipWith_col_map_value :
    ∀ (l : List TileData) (idxs : List Nat),
      (List.zipWith (fun t i => { t with col := i }) l idxs).map TileData.value =
        (l.take idxs.length).map TileData.value := by
  intro l
  induction l with
  | nil => intro idxs; simp
  | cons t ts ih =>
    intro idxs
    rcases idxs with - | ⟨i, is⟩
    · simp
    · simp only [List.zipWith_cons_cons, List.map_cons, List.length_cons,
        List.take_succ_cons]
      rw [ih is]

theorem slideAndMergeRow_spec (row : List (Option TileData)) (hlen : row.length ≤ 4) :
    ((slideAndMergeRow row).newRow.filterMap id).map TileData.value =
      classicMergeValues ((row.filterMap id).map TileData.value) ∧
    (slideAndMergeRow row).scoreIncrease =
      classicMergeScore ((row.filterMap id).map TileData.value) := by
  have hflen : (row.filterMap id).length ≤ 4 :=
    le_trans (List.length_filterMap_le _ _) hlen
  have hmlen : (mergeTriple (row.filterMap id)).1.length ≤ 4 :=
    le_trans (mergeTriple_length_le _) hflen
  unfold slideAndMergeRow
  simp only [mergeScan_eq]
  constructor
  · have hplen : (List.zipWith (fun t i => { t with col := i })
        (mergeTriple (row.filterMap id)).1
        (List.range (mergeTriple (row.filterMap id)).1.length)).length ≤ 4 := by
      rw [List.length_zipWith, List.length_range]
      omega
    rw [filterMap_range_get 4 _ hplen, zipWith_col_map_value, List.length_range,
      List.take_length]
    exact (mergeTriple_values _).1
  · exact (mergeTriple_values _).2

/-- The row `[2, 2, 2, 2]` of the claim's concrete scenario. -/
def row2222 : List (Option TileData) :=
  [some { id := 1, value := 2, row := 0, col := 0 },
   some { id := 2, value := 2, row := 0, col := 1 },
   some { id := 3, value := 2, row := 0, col := 2 },
   some { id := 4, value := 2, row := 0, col := 3 }]

/-- C4: in a single leftward slide-and-merge pass, each tile merges at
most once — the survivors' values and the score delta are exactly those
of the classic one-merge-per-tile recursion; in particular the row
`[2, 2, 2, 2]` produces `[4, 4, _, _]` with score delta 8 (not
`[8, _, _, _]` with score 8). -/
theorem claim_C4_at_most_one_merge_per_tile :
    (∀ row : List (Option TileData), row.length ≤ 4 →
      ((slideAndMergeRow row).newRow.filterMap id).map TileData.value =
        classicMergeValues ((row.filterMap id).map TileData.value) ∧
      (slideAndMergeRow row).scoreIncrease =
        classicMergeScore ((row.filterMap id).map TileData.value)) ∧
    ((slideAndMergeRow row2222).newRow.map valOrNull = [some 4, some 4, none, none] ∧
      (slideAndMergeRow row2222).scoreIncrease = 8) :=
  ⟨slideAndMergeRow_spec, by decide⟩

/-- Witness for C4 at the concrete row `[2, 2, 2, 2]`. -/
theorem claim_C4_witness :
    row2222.length ≤ 4 ∧
    ((slideAndMergeRow row2222).newRow.filterMap id).map TileData.value =
      classicMergeValues ((row2222.filterMap id).map TileData.value) :=
  ⟨by decide, (claim_C4_at_most_one_merge_per_tile.1 row2222 (by decide)).1⟩

/-- Little-endian base-4 value of a move log (each move masked to 2
bits), the arithmetic form of `packMoves`' OR-accumulator. -/
def movesNum : List Nat → Nat
  | [] => 0
  | m :: ms => m % 4 + 4 * movesNum ms

theorem or_shiftLeft_eq_add (a b k : Nat) (h : a < 2 ^ k) :
    a ||| (b <<< k) = a + b * 2 ^ k := by
  rw [Nat.shiftLeft_eq, Nat.or_comm, mul_comm b (2 ^ k), ← Nat.mul_add_lt_is_or h b]
  omega

theorem packLoop_eq_movesNum :
    ∀ (ms : List Nat) (i packed : Nat), packed < 4 ^ i →
      packLoop ms i packed = packed + movesNum ms * 4 ^ i := by
  intro ms
  induction ms with
  | nil => intro i packed h; simp [packLoop, movesNum]
  | cons m ms ih =>
    intro i packed h
    have h4 : (4 : Nat) ^ i = 2 ^ (i * 2) := by
      rw [mul_comm i 2, Nat.pow_mul]
    have hor : packed ||| ((m % 4) <<< (i * 2)) = packed + (m % 4) * 4 ^ i := by
      rw [or_shiftLeft_eq_add _ _ _ (by rw [← h4]; exact h), ← h4]
    have hlt : packed + (m % 4) * 4 ^ i < 4 ^ (i + 1) := by
      have hm : m % 4 < 4 := Nat.mod_lt _ (by decide)
      have : (m % 4) * 4 ^ i ≤ 3 * 4 ^ i := Nat.mul_le_mul_right _ (by omega)
      have hp : (4 : Nat) ^ (i + 1) = 4 * 4 ^ i := by ring
      omega
    rw [packLoop, hor, ih (i + 1) _ hlt]
    have hp : (4 : Nat) ^ (i + 1) = 4 * 4 ^ i := by ring
    rw [hp, movesNum]
    ring

theorem packMovesNat_eq_movesNum (ms : List Nat) : packMovesNat ms = movesNum ms := by
  have h := packLoop_eq_movesNum ms 0 0 (by simp)
  simpa [packMovesNat] using h

theorem movesNum_shift_extract :
    ∀ (ms : List Nat) (j : Nat), movesNum ms / 4 ^ j % 4 = ms.getD j 0 % 4 := by
  intro ms
  induction ms with
  | nil => intro j; simp [movesNum]
  | cons m ms ih =>
    intro j
    cases j with
    | zero =>
      simp only [movesNum, pow_zero, Nat.div_one]
      rw [Nat.add_mul_mod_self_left]
      show m % 4 % 4 = m % 4
      omega
    | succ j =>
      have hstep : movesNum (m :: ms) / 4 ^ (j + 1) = movesNum ms / 4 ^ j := by
        rw [movesNum, pow_succ, mul_comm (4 ^ j) 4, ← Nat.div_div_eq_div_mul]
        congr 1
        rw [Nat.add_mul_div_left _ _ (by decide : 0 < 4)]
        have : m % 4 / 4 = 0 := Nat.div_eq_of_lt (Nat.mod_lt _ (by decide))
        omega
      rw [hstep, ih j]
      rfl

theorem hexVal_hexDigitChar (d : Nat) (h : d < 16) : hexVal (hexDigitChar d) = d := by
  unfold hexVal hexDigitChar
  by_cases h10 : d < 10
  · rw [if_pos h10, if_pos (by omega)]
    omega
  · rw [if_neg h10, if_neg (by omega), if_pos (by omega)]
    omega

/-- The hex-digit fold of `parseHex`, with explicit accumulator. -/
def foldHex (acc : Nat) (s : List Nat) : Nat :=
  s.foldl (fun acc c => acc * 16 + hexVal c) acc

theorem foldHex_append (acc : Nat) (s t : List Nat) :
    foldHex acc (s ++ t) = foldHex (foldHex acc s) t := by
  simp [foldHex, List.foldl_append]

theorem foldHex_hexDigitsF :
    ∀ (fuel n acc : Nat), n ≤ fuel →
      foldHex acc (hexDigitsF fuel n) = acc * 16 ^ (hexDigitsF fuel n).length + n := by
  intro fuel
  induction fuel with
  | zero =>
    intro n acc h
    have : n = 0 := Nat.le_zero.mp h
    subst this
    simp [hexDigitsF, foldHex]
  | succ f ih =>
    intro n acc h
    by_cases h0 : n = 0
    · subst h0
      simp [hexDigitsF, foldHex]
    · have hdiv : n / 16 ≤ f := by
        have h1 : n / 16 < n := Nat.div_lt_self (Nat.pos_of_ne_zero h0) (by decide)
        omega
      simp only [hexDigitsF, if_neg h0]
      rw [foldHex_append, ih _ _ hdiv]
      have hchar : hexVal (hexDigitChar (n % 16)) = n % 16 :=
        hexVal_hexDigitChar _ (Nat.mod_lt _ (by decide))
      have hlen : (hexDigitsF f (n / 16) ++ [hexDigitChar (n % 16)]).length =
          (hexDigitsF f (n / 16)).length + 1 := by simp
      rw [hlen]
      show (acc * 16 ^ (hexDigitsF f (n / 16)).length + n / 16) * 16 +
          hexVal (hexDigitChar (n % 16)) = _
      rw [hchar]
      have hmod := Nat.div_add_mod n 16
      ring_nf
      omega

theorem parseHex_packMoves (ms : List Nat) :
    parseHex (packMoves ms) = movesNum ms := by
  unfold packMoves
  by_cases h0 : ms.length = 0
  · rw [if_pos h0]
    have : ms = [] := List.length_eq_zero.mp h0
    subst this
    rfl
  · rw [if_neg h0]
    show foldHex 0 (toHexString (packMovesNat ms)) = movesNum ms
    unfold toHexString
    by_cases hz : packMovesNat ms = 0
    · rw [if_pos hz, ← packMovesNat_eq_movesNum, hz]
      rfl
    · rw [if_neg hz]
      have h := foldHex_hexDigitsF (packMovesNat ms) (packMovesNat ms) 0 (le_refl _)
      rw [h, ← packMovesNat_eq_movesNum]
      simp

theorem map_getD_range (l : List Nat) :
    (List.range l.length).map (fun j => l.getD j 0) = l := by
  induction l with
  | nil => simp
  | cons x xs ih =>
    rw [List.length_cons, List.range_succ_eq_map, List.map_cons, List.map_map]
    have hcomp : ((fun j => (x :: xs).getD j 0) ∘ Nat.succ) = fun j => xs.getD j 0 := by
      funext j
      rfl
    rw [hcomp, ih]
    rfl

/-- C7 (amended): with the move count supplied, the 2-bit little-endian
packing round-trips: decoding `log.length` two-bit fields of
`packMoves log` recovers every log of move codes 0–3, including logs
with trailing `Up = 0` moves and the empty log. -/
theorem claim_C7_pack_unpack_roundtrip_with_count (log : List Nat)
    (h : ∀ m ∈ log, m < 4) :
    unpackMoves (packMoves log) log.length = log := by
  unfold unpackMoves
  rw [parseHex_packMoves]
  have hentry : ∀ j, (movesNum log >>> (j * 2)) % 4 = log.getD j 0 % 4 := by
    intro j
    rw [Nat.shiftRight_eq_div_pow]
    have : (2 : Nat) ^ (j * 2) = 4 ^ j := by
      rw [mul_comm, Nat.pow_mul]
    rw [this, movesNum_shift_extract]
  have hcongr : (List.range log.length).map (fun j => (movesNum log >>> (j * 2)) % 4) =
      (List.range log.length).map (fun j => log.getD j 0) := by
    apply List.map_congr_left
    intro j hj
    rw [List.mem_range] at hj
    have hmem : log.getD j 0 ∈ log := by
      rw [List.getD_eq_getElem?_getD, List.getElem?_eq_getElem hj, Option.getD_some]
      exact List.getElem_mem hj
    rw [hentry j, Nat.mod_eq_of_lt (h _ hmem)]
  rw [hcongr, map_getD_range]

/-- C7 (counterexample): `packMoves` is not injective — the empty log
and the log of one `Up` move both pack to `'0x0'` — so no decoder of
the packed string alone can recover every log. -/
theorem claim_C7_packMoves_not_injective :
    packMoves [0] = packMoves [] ∧ ([0] : List Nat) ≠ [] := by decide

/-- Witness for C7 at a log with a trailing `Up = 0` move. -/
theorem claim_C7_witness :
    (∀ m ∈ ([0, 3, 1, 0] : List Nat), m < 4) ∧
    unpackMoves (packMoves [0, 3, 1, 0]) 4 = [0, 3, 1, 0] :=
  ⟨by decide, claim_C7_pack_unpack_roundtrip_with_count [0, 3, 1, 0] (by decide)⟩

/-- Clearing of the `isMerged` animation flag (the map `performMove`
applies to the post-move tiles before the deferred spawn). -/
def eraseMerged (t : TileData) : TileData := { t with isMerged := false }

theorem resetFlags_eraseMerged (t : TileData) :
    resetFlags (eraseMerged t) = resetFlags t := rfl

theorem move_map_eraseMerged (ts : List TileData) (d : Direction) :
    move (ts.map eraseMerged) d = move ts d := by
  unfold move
  rw [List.map_map]
  have hcomp : resetFlags ∘ eraseMerged = resetFlags := funext resetFlags_eraseMerged
  rw [hcomp]

theorem tilesToGrid_map_eraseMerged (ts : List TileData) :
    tilesToGrid (ts.map eraseMerged) = tilesToGrid ts := by
  unfold tilesToGrid
  rw [List.foldl_map]
  have hfun : (fun g t => placeValue g (eraseMerged t)) = placeValue := by
    funext g t
    rfl
  rw [hfun]

theorem addRandomTile_map_eraseMerged (ts : List TileData) (p : Int) (c : Nat) :
    addRandomTile (ts.map eraseMerged) p c =
      ((addRandomTile ts p c).1.map eraseMerged,
        (addRandomTile ts p c).2.1, (addRandomTile ts p c).2.2) := by
  unfold addRandomTile
  rw [tilesToGrid_map_eraseMerged]
  by_cases h : (getEmptyCells (tilesToGrid ts)).length = 0
  · simp only [if_pos h]
  · simp only [if_neg h, List.map_append]
    rfl

theorem addRandomTile_fixed_eraseMerged (ts : List TileData) (p : Int) (c : Nat)
    (h : ts.map eraseMerged = ts) :
    (addRandomTile ts p c).1.map eraseMerged = (addRandomTile ts p c).1 := by
  unfold addRandomTile
  by_cases h0 : (getEmptyCells (tilesToGrid ts)).length = 0
  · rw [if_pos h0]
    exact h
  · rw [if_neg h0]
    simp only [List.map_append]
    rw [h]
    rfl

theorem generateInitialTiles_eraseMerged (p : Int) :
    (generateInitialTiles p).1.map eraseMerged = (generateInitialTiles p).1 := by
  unfold generateInitialTiles
  exact addRandomTile_fixed_eraseMerged _ _ _
    (addRandomTile_fixed_eraseMerged [] p 1 rfl)

/-- The replay state after folding a move-code list, as `verifyGame`
does. -/
def verifyRun (seed : List Nat) (ms : List Nat) : VState :=
  ms.foldl verifyStep (verifyInit seed)

theorem directionMap_dirCode (d : Direction) :
    directionMap.getD (dirCode d) Direction.up = d := by
  cases d <;> rfl

theorem dirCode_le (d : Direction) : ¬dirCode d > 3 := by
  cases d <;> decide

/-- Simulation invariant between a live session and the replay of its
own move log: same score, PRNG state and id counter, and the same tiles
up to the `isMerged` animation flag. -/
def ReplaySim (seed : List Nat) (s : LiveState) : Prop :=
  s.tiles = (verifyRun seed s.moves).tiles.map eraseMerged ∧
  s.score = (verifyRun seed s.moves).score ∧
  s.prng = (verifyRun seed s.moves).prng ∧
  s.tileIdCounter = (verifyRun seed s.moves).tileIdCounter

theorem replaySim_init (seed : List Nat) : ReplaySim seed (initSession seed) := by
  refine ⟨?_, rfl, rfl, rfl⟩
  show (generateInitialTiles (hashString seed)).1 =
    (generateInitialTiles (hashString seed)).1.map eraseMerged
  rw [generateInitialTiles_eraseMerged]

/-- `verifyStep` on an in-range move code whose move is accepted,
written out field by field. -/
theorem verifyStep_accepted (v : VState) (d : Direction)
    (hmv : (move v.tiles d).hasMoved = true) :
    verifyStep v (dirCode d) =
      { tiles := (addRandomTile (move v.tiles d).newTiles v.prng v.tileIdCounter).1
        score := v.score + (move v.tiles d).scoreIncrease
        prng := (addRandomTile (move v.tiles d).newTiles v.prng v.tileIdCounter).2.1
        tileIdCounter :=
          (addRandomTile (move v.tiles d).newTiles v.prng v.tileIdCounter).2.2 } := by
  unfold verifyStep
  rw [if_neg (dirCode_le d), directionMap_dirCode]
  dsimp only
  rw [if_pos hmv]

/-- `performMove` on a live (not-over) session whose move is accepted,
written out field by field. -/
theorem performMove_accepted (sha : List Nat → List Nat) (s : LiveState) (d : Direction)
    (hov : s.isGameOver = false) (hmv : (move s.tiles d).hasMoved = true) :
    performMove sha s d =
      { tiles := (addRandomTile ((move s.tiles d).newTiles.map eraseMerged)
          s.prng s.tileIdCounter).1
        score := s.score + (move s.tiles d).scoreIncrease
        moves := s.moves ++ [dirCode d]
        movesHash := sha (s.movesHash ++ [dirCode d])
        prng := (addRandomTile ((move s.tiles d).newTiles.map eraseMerged)
          s.prng s.tileIdCounter).2.1
        tileIdCounter := (addRandomTile ((move s.tiles d).newTiles.map eraseMerged)
          s.prng s.tileIdCounter).2.2
        isGameOver := isGameOver (addRandomTile ((move s.tiles d).newTiles.map eraseMerged)
          s.prng s.tileIdCounter).1
        isWon := s.isWon || (addRandomTile ((move s.tiles d).newTiles.map eraseMerged)
          s.prng s.tileIdCounter).1.any (fun t => t.value = 2048) } := by
  unfold performMove
  rw [hov]
  rw [if_neg (by decide : ¬(false = true))]
  dsimp only
  rw [if_pos hmv]
  rfl

theorem verifyRun_append (seed : List Nat) (ms : List Nat) (m : Nat) :
    verifyRun seed (ms ++ [m]) = verifyStep (verifyRun seed ms) m := by
  unfold verifyRun
  rw [List.foldl_append]
  rfl

theorem replaySim_step (sha : List Nat → List Nat) (seed : List Nat)
    (s : LiveState) (d : Direction) (hs : ReplaySim seed s) :
    ReplaySim seed (performMove sha s d) := by
  obtain ⟨ht, hsc, hp, hc⟩ := hs
  by_cases hov : s.isGameOver
  · unfold performMove
    rw [if_pos hov]
    exact ⟨ht, hsc, hp, hc⟩
  · have hovf : s.isGameOver = false := Bool.not_eq_true _ |>.mp hov
    have hmv_eq : move s.tiles d = move (verifyRun seed s.moves).tiles d := by
      rw [ht, move_map_eraseMerged]
    by_cases hmv : (move s.tiles d).hasMoved
    · have hmv2 : (move (verifyRun seed s.moves).tiles d).hasMoved = true := by
        rw [← hmv_eq]
        exact hmv
      rw [performMove_accepted sha s d hovf hmv]
      have hrun : verifyRun seed (s.moves ++ [dirCode d]) =
          { tiles := (addRandomTile (move (verifyRun seed s.moves).tiles d).newTiles
              (verifyRun seed s.moves).prng (verifyRun seed s.moves).tileIdCounter).1
            score := (verifyRun seed s.moves).score +
              (move (verifyRun seed s.moves).tiles d).scoreIncrease
            prng := (addRandomTile (move (verifyRun seed s.moves).tiles d).newTiles
              (verifyRun seed s.moves).prng (verifyRun seed s.moves).tileIdCounter).2.1
            tileIdCounter := (addRandomTile (move (verifyRun seed s.moves).tiles d).newTiles
              (verifyRun seed s.moves).prng (verifyRun seed s.moves).tileIdCounter).2.2 } := by
        rw [verifyRun_append, verifyStep_accepted _ _ hmv2]
      refine ⟨?_, ?_, ?_, ?_⟩
      · show (addRandomTile ((move s.tiles d).newTiles.map eraseMerged)
            s.prng s.tileIdCounter).1 = (verifyRun seed (s.moves ++ [dirCode d])).tiles.map _
        rw [addRandomTile_map_eraseMerged, hrun, hmv_eq, hp, hc]
      · show s.score + (move s.tiles d).scoreIncrease =
            (verifyRun seed (s.moves ++ [dirCode d])).score
        rw [hrun, hsc, hmv_eq]
      · show (addRandomTile ((move s.tiles d).newTiles.map eraseMerged)
            s.prng s.tileIdCounter).2.1 = (verifyRun seed (s.moves ++ [dirCode d])).prng
        rw [addRandomTile_map_eraseMerged, hrun, hmv_eq, hp, hc]
      · show (addRandomTile ((move s.tiles d).newTiles.map eraseMerged)
            s.prng s.tileIdCounter).2.2 =
            (verifyRun seed (s.moves ++ [dirCode d])).tileIdCounter
        rw [addRandomTile_map_eraseMerged, hrun, hmv_eq, hp, hc]
    · unfold performMove
      rw [hovf]
      rw [if_neg (by decide : ¬(false = true))]
      dsimp only
      rw [if_neg hmv]
      exact ⟨ht, hsc, hp, hc⟩

theorem replaySim_playSession (sha : List Nat → List Nat) (seed : List Nat)
    (dirs : List Direction) : ReplaySim seed (playSession sha seed dirs) :=
  playSession_inv sha (ReplaySim seed) (replaySim_step sha seed) dirs
    (initSession seed) (replaySim_init seed)

/-- C1 (amended): replaying the live session's own move log from the
seed alone reproduces the exact score, and the exact tiles up to the
transient `isMerged` animation flag (ids, values and positions agree
cell for cell); in particular `verifyGame(seed, moves).finalScore`
equals the live session's score, for every SHA function, seed and
direction sequence. -/
theorem claim_C1_replay_reproduces_live_session (sha : List Nat → List Nat)
    (seed : List Nat) (dirs : List Direction) :
    (verifyGame seed (playSession sha seed dirs).moves).finalScore =
      (playSession sha seed dirs).score ∧
    (playSession sha seed dirs).tiles =
      (verifyGame seed (playSession sha seed dirs).moves).finalTiles.map eraseMerged := by
  obtain ⟨ht, hsc, -, -⟩ := replaySim_playSession sha seed dirs
  exact ⟨hsc.symm, ht⟩

/-- C1 (counterexample to the literal claim): with seed `"a"` and two
accepted `Left` moves, the replayed tile set differs from the live one
in the `isMerged` flag of the tile merged by the final move, while the
scores agree. -/
theorem claim_C1_exact_tileset_counterexample :
    (playSession shaZ [97] [Direction.left, Direction.left]).moves = [3, 3] ∧
    (verifyGame [97] [3, 3]).finalScore =
      (playSession shaZ [97] [Direction.left, Direction.left]).score ∧
    (verifyGame [97] [3, 3]).finalTiles ≠
      (playSession shaZ [97] [Direction.left, Direction.left]).tiles := by
  decide

/-- A well-shaped 4×4 grid: 4 rows of 4 cells. -/
def Shaped {α : Type} (g : GridOf α) : Prop :=
  g.length = 4 ∧ ∀ row ∈ g, row.length = 4

theorem getD_map_range {β : Type} (f : Nat → β) (n r : Nat) (d : β) (h : r < n) :
    ((List.range n).map f).getD r d = f r := by
  rw [List.getD_eq_getElem?_getD, List.getElem?_map, List.getElem?_range h]
  rfl

theorem shaped_rotateGrid {α : Type} (g : GridOf α) : Shaped (rotateGrid g) := by
  constructor
  · simp [rotateGrid]
  · intro row hrow
    unfold rotateGrid at hrow
    rw [List.mem_map] at hrow
    obtain ⟨r, -, hr⟩ := hrow
    rw [← hr]
    simp

theorem getO_rotateGrid {α : Type} (g : GridOf α) (r c : Nat) (hr : r < 4) (hc : c < 4) :
    getO (rotateGrid g) r c = getO g (3 - c) r := by
  unfold rotateGrid getO
  rw [getD_map_range _ _ _ _ hr, getD_map_range _ _ _ _ hc]

theorem getD_map_eq {α β : Type} (f : α → β) (l : List α) (n : Nat) (d : β) (dd : α)
    (hfd : f dd = d) : (l.map f).getD n d = f (l.getD n dd) := by
  rw [List.getD_eq_getElem?_getD (l.map f) n d, List.getElem?_map,
    List.getD_eq_getElem?_getD l n dd]
  cases l[n]? with
  | none => simpa using hfd.symm
  | some x => rfl

theorem getO_valueGrid (g : TGrid) (r c : Nat) :
    getO (valueGrid g) r c = valOrNull (getO g r c) := by
  unfold valueGrid getO
  rw [getD_map_eq (fun row => row.map valOrNull) g r [] [] rfl,
    getD_map_eq valOrNull (g.getD r []) c none none rfl]

theorem shaped_valueGrid (g : TGrid) (hg : Shaped g) : Shaped (valueGrid g) := by
  obtain ⟨hlen, hrows⟩ := hg
  constructor
  · simp [valueGrid, hlen]
  · intro row hrow
    unfold valueGrid at hrow
    rw [List.mem_map] at hrow
    obtain ⟨row₀, hmem, hr⟩ := hrow
    rw [← hr, List.length_map]
    exact hrows row₀ hmem

theorem grid_ext {α : Type} (g h : GridOf α) (hg : Shaped g) (hh : Shaped h)
    (he : ∀ r c, r < 4 → c < 4 → getO g r c = getO h r c) : g = h := by
  obtain ⟨hgl, hgr⟩ := hg
  obtain ⟨hhl, hhr⟩ := hh
  apply List.ext_getElem?
  intro r
  by_cases hr : r < 4
  · have hrg : r < g.length := by omega
    have hrh : r < h.length := by omega
    rw [List.getElem?_eq_getElem hrg, List.getElem?_eq_getElem hrh]
    have hrowg : g[r] ∈ g := List.getElem_mem hrg
    have hrowh : h[r] ∈ h := List.getElem_mem hrh
    congr 1
    apply List.ext_getElem?
    intro c
    by_cases hc : c < 4
    · have hcg : c < (g[r]).length := by rw [hgr _ hrowg]; omega
      have hch : c < (h[r]).length := by rw [hhr _ hrowh]; omega
      rw [List.getElem?_eq_getElem hcg, List.getElem?_eq_getElem hch]
      have hga : getO g r c = g[r][c] := by
        unfold getO
        rw [List.getD_eq_getElem?_getD g r [], List.getElem?_eq_getElem hrg,
          Option.getD_some, List.getD_eq_getElem?_getD (g[r]) c none,
          List.getElem?_eq_getElem hcg, Option.getD_some]
      have hhb : getO h r c = h[r][c] := by
        unfold getO
        rw [List.getD_eq_getElem?_getD h r [], List.getElem?_eq_getElem hrh,
          Option.getD_some, List.getD_eq_getElem?_getD (h[r]) c none,
          List.getElem?_eq_getElem hch, Option.getD_some]
      rw [← hga, ← hhb, he r c hr hc]
    · rw [List.getElem?_eq_none (by rw [hgr _ hrowg]; omega),
        List.getElem?_eq_none (by rw [hhr _ hrowh]; omega)]
  · rw [List.getElem?_eq_none (by omega), List.getElem?_eq_none (by omega)]

theorem valueGrid_rotateGrid (g : TGrid) :
    valueGrid (rotateGrid g) = rotateGrid (valueGrid g) := by
  apply grid_ext _ _ (shaped_valueGrid _ (shaped_rotateGrid g)) (shaped_rotateGrid _)
  intro r c hr hc
  rw [getO_valueGrid, getO_rotateGrid _ _ _ hr hc, getO_rotateGrid _ _ _ hr hc,
    getO_valueGrid]

theorem rotateGrid_four {α : Type} (g : GridOf α) (hg : Shaped g) :
    rotateGrid (rotateGrid (rotateGrid (rotateGrid g))) = g := by
  apply grid_ext _ _ (shaped_rotateGrid _) hg
  intro r c hr hc
  rw [getO_rotateGrid _ _ _ hr hc]
  rw [getO_rotateGrid _ _ _ (by omega) hr]
  rw [getO_rotateGrid _ _ _ (by omega) (by omega)]
  rw [getO_rotateGrid _ _ _ (by omega) (by omega)]
  have h1 : 3 - (3 - r) = r := by omega
  have h2 : 3 - (3 - c) = c := by omega
  rw [h1, h2]

/-- Every cell of a grid is occupied. -/
def AllSome {α : Type} (g : GridOf α) : Prop :=
  ∀ r c, r < 4 → c < 4 → (getO g r c).isSome = true

theorem allSome_rotateGrid {α : Type} (g : GridOf α) (h : AllSome (rotateGrid g)) :
    AllSome g := by
  intro r c hr hc
  have := h c (3 - r) hc (by omega)
  rw [getO_rotateGrid _ _ _ hc (by omega)] at this
  have h3 : 3 - (3 - r) = r := by omega
  rw [h3] at this
  exact this

theorem shaped_emptyGrid (α : Type) : Shaped (emptyGrid α) := by
  constructor
  · rfl
  · intro row hrow
    rw [List.eq_of_mem_replicate hrow]
    rfl

theorem shaped_setCell {α : Type} (g : GridOf α) (r c : Nat) (v : Option α)
    (hg : Shaped g) : Shaped (setCell g r c v) := by
  obtain ⟨hl, hrows⟩ := hg
  by_cases hrlen : r < g.length
  · constructor
    · rw [setCell, List.length_set]
      exact hl
    · intro row hrow
      unfold setCell at hrow
      rcases List.mem_or_eq_of_mem_set hrow with hmem | heq
      · exact hrows _ hmem
      · rw [heq, List.length_set]
        rw [List.getD_eq_getElem?_getD g r [], List.getElem?_eq_getElem hrlen,
          Option.getD_some]
        exact hrows _ (List.getElem_mem hrlen)
  · unfold setCell
    rw [List.set_eq_of_length_le (by omega)]
    exact ⟨hl, hrows⟩

theorem shaped_placeValue (g : VGrid) (t : TileData) (hg : Shaped g) :
    Shaped (placeValue g t) := by
  unfold placeValue
  by_cases h : getO g t.row t.col = none
  · rw [if_pos h]
    exact shaped_setCell _ _ _ _ hg
  · rw [if_neg h]
    exact hg

theorem shaped_foldl {α β : Type} (step : GridOf α → β → GridOf α)
    (hstep : ∀ g b, Shaped g → Shaped (step g b)) :
    ∀ (l : List β) (g : GridOf α), Shaped g → Shaped (l.foldl step g) := by
  intro l
  induction l with
  | nil => exact fun g h => h
  | cons x xs ih => exact fun g h => ih _ (hstep g x h)

theorem shaped_tilesToGrid (ts : List TileData) : Shaped (tilesToGrid ts) :=
  shaped_foldl placeValue shaped_placeValue ts _ (shaped_emptyGrid Nat)

theorem shaped_buildTileGrid (ts : List TileData) : Shaped (buildTileGrid ts) :=
  shaped_foldl _ (fun g t hg => shaped_setCell g t.row t.col (some t) hg) ts _
    (shaped_emptyGrid TileData)

theorem getO_emptyGrid (α : Type) (r c : Nat) : getO (emptyGrid α) r c = none := by
  unfold getO emptyGrid
  rw [List.getD_eq_getElem?_getD (List.replicate 4 (List.replicate 4 none)) r [],
    List.getElem?_replicate]
  by_cases hr : r < 4
  · rw [if_pos hr, Option.getD_some,
      List.getD_eq_getElem?_getD (List.replicate 4 none) c none, List.getElem?_replicate]
    by_cases hc : c < 4
    · rw [if_pos hc]
      rfl
    · rw [if_neg hc]
      rfl
  · rw [if_neg hr]
    rfl

theorem getO_tilesToGrid_none_of_no_tile (r c : Nat) :
    ∀ (ts : List TileData) (g : VGrid), getO g r c = none →
      (∀ t ∈ ts, ¬(t.row = r ∧ t.col = c)) →
      getO (ts.foldl placeValue g) r c = none := by
  intro ts
  induction ts with
  | nil => exact fun g hg _ => hg
  | cons t ts ih =>
    intro g hg hno
    rw [List.foldl_cons]
    apply ih
    · rw [getO_placeValue_ne g t r c]
      · exact hg
      · intro ⟨h1, h2⟩
        exact hno t (List.mem_cons_self t ts) ⟨h1.symm, h2.symm⟩
    · intro u hu
      exact hno u (List.mem_cons_of_mem t hu)

theorem gridToTiles_mem_pos (g : TGrid) (t : TileData) (ht : t ∈ gridToTiles g) :
    (getO g t.row t.col).isSome = true := by
  unfold gridToTiles at ht
  rw [List.mem_filterMap] at ht
  obtain ⟨rc, -, hmap⟩ := ht
  cases hcell : getO g rc.1 rc.2 with
  | none =>
    rw [hcell] at hmap
    simp at hmap
  | some u =>
    rw [hcell] at hmap
    simp only [Option.map_some'] at hmap
    have ht' : t = { u with row := rc.1, col := rc.2 } := (Option.some.inj hmap).symm
    rw [ht']
    show (getO g rc.1 rc.2).isSome = true
    rw [hcell]
    rfl

theorem allSome_of_emptyCells_nil (g : TGrid)
    (h : (getEmptyCells (tilesToGrid (gridToTiles g))).length = 0) : AllSome g := by
  intro r c hr hc
  by_contra hns
  have hnone : getO g r c = none := by
    cases hcell : getO g r c with
    | none => rfl
    | some u =>
      rw [hcell] at hns
      simp at hns
  have hcellnone : getO (tilesToGrid (gridToTiles g)) r c = none := by
    apply getO_tilesToGrid_none_of_no_tile r c (gridToTiles g) _ (getO_emptyGrid Nat r c)
    intro t ht ⟨h1, h2⟩
    have hp := gridToTiles_mem_pos g t ht
    rw [h1, h2, hnone] at hp
    simp at hp
  have hmem : (r, c) ∈ getEmptyCells (tilesToGrid (gridToTiles g)) := by
    unfold getEmptyCells
    rw [List.mem_filter]
    refine ⟨(mem_cellsRM r c).mpr ⟨hr, hc⟩, ?_⟩
    rw [hcellnone]
    rfl
  exact List.ne_nil_of_mem hmem (List.length_eq_zero.mp h)

theorem map_get_range_of_length {α : Type} :
    ∀ (l : List α), (List.range l.length).map (fun i => l.get? i) = l.map some := by
  intro l
  induction l with
  | nil => simp
  | cons x xs ih =>
    rw [List.length_cons, List.range_succ_eq_map, List.map_cons, List.map_map,
      List.map_cons]
    have hcomp : ((fun i => (x :: xs).get? i) ∘ Nat.succ) = fun i => xs.get? i := by
      funext i
      rfl
    rw [hcomp, ih]
    rfl

theorem mergeTriple_of_length_eq (l : List TileData)
    (h : (mergeTriple l).1.length = l.length) : (mergeTriple l).1 = l := by
  induction l using mergeTriple.induct with
  | case1 => simp [mergeTriple]
  | case2 a => simp [mergeTriple]
  | case3 a b rest₂ hv ih =>
    exfalso
    have hle := mergeTriple_length_le rest₂
    simp only [mergeTriple, if_pos hv, List.length_cons] at h
    omega
  | case4 a b rest₂ hv ih =>
    have hstep : (mergeTriple (a :: b :: rest₂)).1 = a :: (mergeTriple (b :: rest₂)).1 := by
      simp [mergeTriple, hv]
    rw [hstep] at h ⊢
    rw [List.length_cons, List.length_cons] at h
    rw [ih (by omega)]

theorem filterMap_id_full {α : Type} :
    ∀ (l : List (Option α)), (l.filterMap id).length = l.length →
      l = (l.filterMap id).map some := by
  intro l
  induction l with
  | nil => simp
  | cons o l ih =>
    intro h
    cases o with
    | none =>
      exfalso
      rw [List.filterMap_cons] at h
      have hle := List.length_filterMap_le id l
      simp only [List.length_cons] at h
      simp only [id] at h
      omega
    | some x =>
      rw [List.filterMap_cons]
      simp only [id, List.map_cons]
      rw [List.filterMap_cons] at h
      simp only [id, List.length_cons] at h
      have := ih (by omega)
      rw [← this]

theorem zipWith_col_map_invariant {β : Type} (φ : TileData → β)
    (hφ : ∀ t i, φ { t with col := i } = φ t) :
    ∀ (l : List TileData) (idxs : List Nat),
      (List.zipWith (fun t i => { t with col := i }) l idxs).map φ =
        (l.take idxs.length).map φ := by
  intro l
  induction l with
  | nil => intro idxs; simp
  | cons t ts ih =>
    intro idxs
    rcases idxs with - | ⟨i, is⟩
    · simp
    · simp only [List.zipWith_cons_cons, List.map_cons, List.length_cons,
        List.take_succ_cons]
      rw [ih is, hφ]

/-- A row of length 4 whose slid-and-merged result has no hole kept its
exact value layout: nothing moved or merged in it. -/
theorem slideRow_full_values (row : List (Option TileData)) (hlen : row.length = 4)
    (hfull : ∀ i, i < 4 → ((slideAndMergeRow row).newRow.getD i none).isSome = true) :
    (slideAndMergeRow row).newRow.map valOrNull = row.map valOrNull := by
  have hfle : (row.filterMap id).length ≤ 4 := by
    have := List.length_filterMap_le id row
    omega
  have hmle := mergeTriple_length_le (row.filterMap id)
  unfold slideAndMergeRow at hfull ⊢
  simp only [mergeScan_eq] at hfull ⊢
  have hplen : (List.zipWith (fun t i => { t with col := i })
      (mergeTriple (row.filterMap id)).1
      (List.range (mergeTriple (row.filterMap id)).1.length)).length =
      (mergeTriple (row.filterMap id)).1.length := by
    rw [List.length_zipWith, List.length_range, Nat.min_self]
  have h4 : 4 ≤ (List.zipWith (fun t i => { t with col := i })
      (mergeTriple (row.filterMap id)).1
      (List.range (mergeTriple (row.filterMap id)).1.length)).length := by
    by_contra hlt
    push_neg at hlt
    have hlast := hfull _ hlt
    rw [getD_map_range _ 4 _ _ hlt] at hlast
    rw [List.get?_eq_getElem?, List.getElem?_eq_none (le_refl _)] at hlast
    simp at hlast
  have hm4 : (mergeTriple (row.filterMap id)).1.length = 4 := by omega
  have hf4 : (row.filterMap id).length = 4 := by omega
  have hmerged : (mergeTriple (row.filterMap id)).1 = row.filterMap id :=
    mergeTriple_of_length_eq _ (by omega)
  have hrow : row = (row.filterMap id).map some := filterMap_id_full row (by omega)
  show ((List.range 4).map (fun i => (List.zipWith (fun t i => { t with col := i })
      (mergeTriple (row.filterMap id)).1
      (List.range (mergeTriple (row.filterMap id)).1.length)).get? i)).map valOrNull =
    row.map valOrNull
  have hr4 : (4 : Nat) = (List.zipWith (fun t i => { t with col := i })
      (mergeTriple (row.filterMap id)).1
      (List.range (mergeTriple (row.filterMap id)).1.length)).length := by omega
  rw [hr4, map_get_range_of_length, List.map_map,
    zipWith_col_map_invariant (valOrNull ∘ some) (fun t i => rfl),
    List.length_range, List.take_length, hmerged]
  conv_rhs => rw [hrow]
  rw [List.map_map]

theorem length_newRow (row : List (Option TileData)) :
    (slideAndMergeRow row).newRow.length = 4 := by
  unfold slideAndMergeRow
  simp

theorem shaped_slideGrid (g : TGrid) (hlen : g.length = 4) : Shaped (slideGrid g).1 := by
  constructor
  · show (List.map _ (List.zipWith _ g (List.range g.length))).length = 4
    rw [List.length_map, List.length_zipWith, List.length_range, Nat.min_self, hlen]
  · intro row hrow
    unfold slideGrid at hrow
    rw [List.mem_map] at hrow
    obtain ⟨res, hres, hrow⟩ := hrow
    rw [List.mem_iff_getElem?] at hres
    obtain ⟨i, hi⟩ := hres
    rw [List.getElem?_zipWith] at hi
    cases hgi : g[i]? with
    | none =>
      rw [hgi] at hi
      simp at hi
    | some grow =>
      rw [hgi] at hi
      cases hri : (List.range g.length)[i]? with
      | none =>
        rw [hri] at hi
        simp at hi
      | some j =>
        rw [hri] at hi
        simp only [Option.some.injEq] at hi
        rw [← hrow, ← hi, length_newRow]

theorem slideGrid_row (g : TGrid) (r : Nat) (hr : r < g.length) :
    (slideGrid g).1.getD r [] =
      (slideAndMergeRow ((g.getD r []).map
        (fun o => o.map (fun t => { t with row := r })))).newRow := by
  unfold slideGrid
  rw [List.getD_eq_getElem?_getD (List.map _ _) r [], List.getElem?_map,
    List.getElem?_zipWith, List.getElem?_eq_getElem hr, List.getElem?_range hr]
  rw [List.getD_eq_getElem?_getD g r [], List.getElem?_eq_getElem hr, Option.getD_some]
  rfl

theorem valOrNull_map_rowTag (o : Option TileData) (r : Nat) :
    valOrNull (o.map (fun t => { t with row := r })) = valOrNull o := by
  cases o <;> rfl

theorem valOrNull_getD_rowTag (l : List (Option TileData)) (r c : Nat) :
    valOrNull ((l.map (fun o => o.map (fun t => { t with row := r }))).getD c none) =
      valOrNull (l.getD c none) := by
  rw [List.getD_eq_getElem?_getD (l.map _) c none, List.getElem?_map,
    List.getD_eq_getElem?_getD l c none]
  cases l[c]? with
  | none => rfl
  | some o => exact valOrNull_map_rowTag o r

theorem slideGrid_full_valueGrid (g : TGrid) (hg : Shaped g)
    (hfull : AllSome (slideGrid g).1) :
    valueGrid (slideGrid g).1 = valueGrid g := by
  obtain ⟨hlen, hrows⟩ := hg
  apply grid_ext _ _ (shaped_valueGrid _ (shaped_slideGrid g hlen))
    (shaped_valueGrid _ ⟨hlen, hrows⟩)
  intro r c hr hc
  rw [getO_valueGrid, getO_valueGrid]
  have hrg : r < g.length := by omega
  have hrowlen : (g.getD r []).length = 4 := by
    rw [List.getD_eq_getElem?_getD g r [], List.getElem?_eq_getElem hrg, Option.getD_some]
    exact hrows _ (List.getElem_mem hrg)
  have hragged := slideGrid_row g r hrg
  have htag : ((g.getD r []).map (fun o => o.map (fun t => { t with row := r }))).length
      = 4 := by
    rw [List.length_map]
    exact hrowlen
  have hfull_row : ∀ i, i < 4 →
      (((slideAndMergeRow ((g.getD r []).map
        (fun o => o.map (fun t => { t with row := r })))).newRow).getD i none).isSome
        = true := by
    intro i hi
    have hcell := hfull r i hr hi
    unfold getO at hcell
    rw [hragged] at hcell
    exact hcell
  have hvals := slideRow_full_values _ htag hfull_row
  show valOrNull (getO (slideGrid g).1 r c) = valOrNull (getO g r c)
  unfold getO
  rw [hragged, ← getD_map_eq valOrNull _ c none none rfl, hvals,
    getD_map_eq valOrNull _ c none none rfl, valOrNull_getD_rowTag]

theorem shaped_rot_iterate {α : Type} (g : GridOf α) (hg : Shaped g) (n : Nat) :
    Shaped (rotateGrid^[n] g) := by
  cases n with
  | zero => exact hg
  | succ m =>
    rw [Function.iterate_succ_apply']
    exact shaped_rotateGrid _

theorem allSome_rot_iterate {α : Type} (n : Nat) :
    ∀ (g : GridOf α), AllSome (rotateGrid^[n] g) → AllSome g := by
  induction n with
  | zero => exact fun g h => h
  | succ m ih =>
    intro g h
    rw [Function.iterate_succ_apply] at h
    exact allSome_rotateGrid g (by
      have := ih (rotateGrid g) h
      exact fun r c hr hc => this r c hr hc)

theorem valueGrid_rot_iterate (n : Nat) :
    ∀ (g : TGrid), Shaped g → valueGrid (rotateGrid^[n] g) = rotateGrid^[n] (valueGrid g) := by
  induction n with
  | zero => exact fun g _ => rfl
  | succ m ih =>
    intro g hg
    rw [Function.iterate_succ_apply, Function.iterate_succ_apply]
    rw [ih (rotateGrid g) (shaped_rotateGrid g), valueGrid_rotateGrid g]

theorem rot_iterate_four {α : Type} (g : GridOf α) (hg : Shaped g) :
    rotateGrid^[4] g = g := by
  show rotateGrid (rotateGrid (rotateGrid (rotateGrid g))) = g
  exact rotateGrid_four g hg

theorem move_hasMoved_eq (ts : List TileData) (d : Direction) :
    (move ts d).hasMoved =
      decide (valueGrid (buildTileGrid (ts.map resetFlags)) ≠
        valueGrid (rotateGrid^[(4 - rotationCount d) % 4]
          (slideGrid (rotateGrid^[rotationCount d] (buildTileGrid (ts.map resetFlags)))).1))
    := rfl

theorem move_newTiles_eq (ts : List TileData) (d : Direction) :
    (move ts d).newTiles =
      gridToTiles (rotateGrid^[(4 - rotationCount d) % 4]
        (slideGrid (rotateGrid^[rotationCount d] (buildTileGrid (ts.map resetFlags)))).1)
    := rfl

theorem valueGrid_rot_roundtrip (g0 : TGrid) (hsh0 : Shaped g0) (k1 : Nat) (hk : k1 < 4)
    (hall : AllSome (rotateGrid^[(4 - k1) % 4] (slideGrid (rotateGrid^[k1] g0)).1)) :
    valueGrid (rotateGrid^[(4 - k1) % 4] (slideGrid (rotateGrid^[k1] g0)).1) =
      valueGrid g0 := by
  have hsh1 : Shaped (rotateGrid^[k1] g0) := shaped_rot_iterate g0 hsh0 k1
  have hallslid : AllSome (slideGrid (rotateGrid^[k1] g0)).1 :=
    allSome_rot_iterate ((4 - k1) % 4) _ hall
  rw [valueGrid_rot_iterate ((4 - k1) % 4) _ (shaped_slideGrid _ hsh1.1),
    slideGrid_full_valueGrid _ hsh1 hallslid,
    valueGrid_rot_iterate k1 _ hsh0, ← Function.iterate_add_apply]
  interval_cases k1
  · rfl
  · exact rot_iterate_four _ (shaped_valueGrid _ hsh0)
  · exact rot_iterate_four _ (shaped_valueGrid _ hsh0)
  · exact rot_iterate_four _ (shaped_valueGrid _ hsh0)

/-- If the board after a move is completely full, the move cannot have
changed the value layout: full slid rows are unchanged rows, and four
rotations are the identity. -/
theorem move_full_not_hasMoved (ts : List TileData) (d : Direction)
    (h : (getEmptyCells (tilesToGrid (move ts d).newTiles)).length = 0) :
    (move ts d).hasMoved = false := by
  rw [move_newTiles_eq] at h
  rw [move_hasMoved_eq]
  have hall := allSome_of_emptyCells_nil _ h
  have hveq := valueGrid_rot_roundtrip (buildTileGrid (ts.map resetFlags))
    (shaped_buildTileGrid _) (rotationCount d) (by cases d <;> decide) hall
  rw [hveq]
  simp

theorem countP_not_add_countP {α : Type} (p : α → Bool) :
    ∀ l : List α, l.countP (fun x => !(p x)) + l.countP p = l.length := by
  intro l
  induction l with
  | nil => simp
  | cons x xs ih =>
    rw [List.countP_cons, List.countP_cons, List.length_cons]
    cases hx : p x
    · simp only [Bool.not_false, Bool.not_true, Bool.false_eq_true, eq_self_iff_true,
        if_true, if_false]
      omega
    · simp only [Bool.not_false, Bool.not_true, Bool.false_eq_true, eq_self_iff_true,
        if_true, if_false]
      omega

theorem emptyCells_length_ne_zero (ts : List TileData) (h : ts.length < 16) :
    (getEmptyCells (tilesToGrid ts)).length ≠ 0 := by
  have hocc := occupiedCount_tilesToGrid_le ts
  have hnot : (fun rc : Nat × Nat => (getO (tilesToGrid ts) rc.1 rc.2).isNone) =
      (fun rc : Nat × Nat => !((getO (tilesToGrid ts) rc.1 rc.2).isSome)) := by
    funext rc
    cases getO (tilesToGrid ts) rc.1 rc.2 <;> rfl
  have hpart := countP_not_add_countP
    (fun rc : Nat × Nat => (getO (tilesToGrid ts) rc.1 rc.2).isSome) cellsRM
  have hlen : (getEmptyCells (tilesToGrid ts)).length =
      cellsRM.countP (fun rc => !((getO (tilesToGrid ts) rc.1 rc.2).isSome)) := by
    unfold getEmptyCells
    rw [hnot, ← List.countP_eq_length_filter]
  have h16 : cellsRM.length = 16 := by decide
  unfold occupiedCount at hocc
  omega

theorem addRandomTile_prng_spawn (ts : List TileData) (p : Int) (c : Nat)
    (h : ¬(getEmptyCells (tilesToGrid ts)).length = 0) :
    (addRandomTile ts p c).2.1 = lcgStep (lcgStep p) ∧
    (addRandomTile ts p c).1.length = ts.length + 1 := by
  unfold addRandomTile
  rw [if_neg h]
  exact ⟨rfl, by simp⟩

theorem generateInitialTiles_prng (p : Int) :
    (generateInitialTiles p).2.1 = lcgStep^[4] p := by
  have h1 : ¬(getEmptyCells (tilesToGrid ([] : List TileData))).length = 0 := by decide
  have hs1 := addRandomTile_prng_spawn [] p 1 h1
  have h2 : (addRandomTile [] p 1).1.length < 16 := by
    rw [hs1.2]
    decide
  have hs2 := addRandomTile_prng_spawn (addRandomTile [] p 1).1 (addRandomTile [] p 1).2.1
    (addRandomTile [] p 1).2.2 (emptyCells_length_ne_zero _ h2)
  show (addRandomTile (addRandomTile [] p 1).1 (addRandomTile [] p 1).2.1
    (addRandomTile [] p 1).2.2).2.1 = lcgStep^[4] p
  rw [hs2.1, hs1.1]
  rfl

/-- C3: starting a session consumes exactly 4 PRNG draws (two spawns of
two draws each) and every accepted move exactly 2 more, so the live
session's PRNG state always equals a fresh generator advanced
`4 + moves.length * 2` times — the exact fast-forward the reload path
performs. -/
theorem claim_C3_prng_draw_count (sha : List Nat → List Nat) (seed : List Nat)
    (dirs : List Direction) :
    (playSession sha seed dirs).prng =
      lcgStep^[4 + (playSession sha seed dirs).moves.length * 2] (hashString seed) := by
  refine playSession_inv sha
    (fun s => s.prng = lcgStep^[4 + s.moves.length * 2] (hashString seed)) ?_ dirs
    (initSession seed) ?_
  · intro s d hp
    by_cases hov : s.isGameOver
    · unfold performMove
      rw [if_pos hov]
      exact hp
    · have hovf : s.isGameOver = false := (Bool.not_eq_true _).mp hov
      by_cases hmv : (move s.tiles d).hasMoved
      · rw [performMove_accepted sha s d hovf hmv]
        show (addRandomTile ((move s.tiles d).newTiles.map eraseMerged) s.prng
            s.tileIdCounter).2.1 =
          lcgStep^[4 + (s.moves ++ [dirCode d]).length * 2] (hashString seed)
        have hne : ¬(getEmptyCells (tilesToGrid
            ((move s.tiles d).newTiles.map eraseMerged))).length = 0 := by
          rw [tilesToGrid_map_eraseMerged]
          intro h0
          have hfalse := move_full_not_hasMoved s.tiles d h0
          rw [hfalse] at hmv
          simp at hmv
        rw [(addRandomTile_prng_spawn _ _ _ hne).1, hp, List.length_append,
          List.length_singleton]
        rw [show 4 + (s.moves.length + 1) * 2 = 2 + (4 + s.moves.length * 2) by ring]
        conv_rhs => rw [Function.iterate_add_apply]
        rfl
      · unfold performMove
        rw [hovf, if_neg (by decide : ¬(false = true))]
        dsimp only
        rw [if_neg hmv]
        exact hp
  · exact generateInitialTiles_prng (hashString seed)

end Game2048
